import Mathlib

/-!
# JSentinel — formal verification of the analysis engine

Shallow embedding of the JSentinel scanner core:

* the semantic-version range matcher (`compareVersions`, `isVersionInRange`
  from the TypeScript scanner; `_parseVersion`, `_isVersionVulnerable` from
  the legacy JavaScript scanner),
* the AST structural pattern matcher (`matchesPattern` and its helpers),
* the data-flow graph queries (`getDataFlowSources`, `findDataFlowSinks`,
  `getNodeId`),
* the parallel scan orchestration (`scanner.worker.ts` file loop and the
  worker aggregation in `scanner.ts`),
* the severity filter (`filterBySeverity`), and
* the vulnerability cache update (`VulnerabilityCache.updateVulnerability`).

Version strings are modelled at the level the code computes with: a version
is the list of its numeric dot-separated components (`String.split('.')`
followed by `Number`), and a range bound is `none` exactly when the bound is
absent or the empty string (both are skipped by the JavaScript truthiness
checks in the sources).
-/

set_option maxHeartbeats 1000000

namespace JSentinel

/-! ## Version comparison (src/unnamed/part_004, `compareVersions`)

The TypeScript `compareVersions(a, b)` splits both strings on `.`, maps
`Number`, and walks indices `0 .. max(len a, len b) - 1` with missing
entries defaulting to `0`, returning `aVal - bVal` at the first index where
the values differ, else `0`.  The walk is reproduced structurally. -/

/-- The tail of the comparison walk once the left list is exhausted
(`aVal = 0` from then on). -/
def cmpTail : List Nat → Int
  | [] => 0
  | b :: bs => if (0 : Nat) ≠ b then (0 : Int) - (b : Int) else cmpTail bs

/-- The tail of the comparison walk once the right list is exhausted
(`bVal = 0` from then on). -/
def cmpHead : List Nat → Int
  | [] => 0
  | a :: as => if a ≠ (0 : Nat) then (a : Int) - (0 : Int) else cmpHead as

def compareVersions : List Nat → List Nat → Int
  | [], bs => cmpTail bs
  | a :: as, [] => if a ≠ (0 : Nat) then (a : Int) - (0 : Int) else cmpHead as
  | a :: as, b :: bs => if a ≠ b then (a : Int) - (b : Int) else compareVersions as bs

/-- A vulnerability version range (`Range` in src/src/types/index.ts):
both bounds optional, `none` when the field is absent (or the empty,
hence JavaScript-falsy, string). -/
structure VRange where
  atOrAbove : Option (List Nat)
  below : Option (List Nat)
deriving DecidableEq, Repr

/-- The body of the `ranges.some(range => ...)` callback in
`isVersionInRange` (src/unnamed/part_004 lines 555-563): return `false`
when `atOrAbove` is present and the version compares below it, `false`
when `below` is present and the version compares at or above it, and
`true` otherwise. -/
def rangeCheck (nv : List Nat) (r : VRange) : Bool :=
  if (match r.atOrAbove with
      | some a => decide (compareVersions nv a < 0)
      | none => false) then false
  else if (match r.below with
      | some b => decide (compareVersions nv b ≥ 0)
      | none => false) then false
  else true

/-- `isVersionInRange` (src/unnamed/part_004 lines 549-564): empty range
list matches nothing; otherwise the version is truncated to its first
three components (`parts.slice(0, 3)`) and tested against each range. -/
def isVersionInRange (version : List Nat) (ranges : List VRange) : Bool :=
  if ranges = [] then false
  else
    let normalizedVersion := version.take 3
    ranges.any (rangeCheck normalizedVersion)

/-! ## Legacy scanner (src/src/scanner.js) -/

/-- `_parseVersion` (src/src/scanner.js lines 97-100):
`parts[0] * 10000 + (parts[1] || 0) * 100 + (parts[2] || 0)`. -/
def parseVersionNum (l : List Nat) : Nat :=
  l.getD 0 0 * 10000 + l.getD 1 0 * 100 + l.getD 2 0

/-- JavaScript truthiness of a number that may be `null`:
`null` and `0` are falsy. -/
def numTruthy : Option Nat → Bool
  | some n => decide (n ≠ 0)
  | none => false

/-- The body of the `ranges.some(range => ...)` callback in
`_isVersionVulnerable` (src/src/scanner.js lines 81-94).  Note the
truthiness tests `atOrAbove && below` are on the *parsed numbers*, so a
bound that parses to `0` (i.e. `0.0.0`) falls through to the next branch. -/
def rangeVulnJs (v : List Nat) (r : VRange) : Bool :=
  let versionNum := parseVersionNum v
  let atOrAbove := r.atOrAbove.map parseVersionNum
  let below := r.below.map parseVersionNum
  if numTruthy atOrAbove && numTruthy below then
    decide (versionNum ≥ atOrAbove.getD 0) && decide (versionNum < below.getD 0)
  else if numTruthy atOrAbove then
    decide (versionNum ≥ atOrAbove.getD 0)
  else if numTruthy below then
    decide (versionNum < below.getD 0)
  else false

/-- `_isVersionVulnerable` (src/src/scanner.js lines 80-95). -/
def isVersionVulnerableJs (v : List Nat) (ranges : List VRange) : Bool :=
  ranges.any (rangeVulnJs v)

/-! ## Version-string sanitisation (src/unnamed/part_004, `scanDependencies`)

`scanDependencies` computes `cleanVersion = version.replace(/[^0-9.]/g, '')`
and hands it to `isVersionInRange`, which performs
`version.split('.').map(Number)`.  JavaScript's `split('.')` and `Number`
are embedded below (`Number('') = 0`, and components are digit-only after
sanitisation). -/

/-- `version.replace(/[^0-9.]/g, '')` (src/unnamed/part_004 line 526). -/
def cleanVersion (s : String) : String :=
  String.mk (s.data.filter (fun c => c.isDigit || c == '.'))

/-- JavaScript `"x.y".split('.')` on a character list: components between
dots, `"".split('.') = [""]`. -/
def splitDots : List Char → List (List Char)
  | [] => [[]]
  | c :: rest =>
    if c = '.' then [] :: splitDots rest
    else
      match splitDots rest with
      | [] => [[c]]
      | comp :: comps => (c :: comp) :: comps

/-- JavaScript `Number` on a digit-only component; `Number('') = 0`. -/
def parseComp (l : List Char) : Nat :=
  l.foldl (fun acc c => acc * 10 + (c.toNat - '0'.toNat)) 0

/-- `version.split('.').map(Number)` (src/unnamed/part_004 line 552). -/
def parseVersionParts (s : String) : List Nat :=
  (splitDots s.data).map parseComp

/-- The per-dependency version test of `scanDependencies`
(src/unnamed/part_004 lines 525-538): sanitise the manifest version
string, then test it against the record's ranges with
`isVersionInRange`. -/
def depVulnerable (version : String) (ranges : List VRange) : Bool :=
  isVersionInRange (parseVersionParts (cleanVersion version)) ranges

/-! ## Data-flow graph (src/unnamed/part_004)

`DataFlow` (src/src/types/index.ts lines 123-128) minus the AST `node`
back-pointer, which the queries never read. -/

/-- One edge of the per-file data-flow graph. -/
structure DataFlowE where
  dfType : String
  source : Option String
  arguments : Option (List String)
deriving DecidableEq, Repr

/-- The graph: `Map<string, DataFlow>` as an association list keyed by
flow-node-id. -/
def lookupG : List (String × DataFlowE) → String → Option DataFlowE
  | [], _ => none
  | (k, v) :: rest, key => if k = key then some v else lookupG rest key

/-- First-occurrence deduplication, the effect of `[...new Set(xs)]`. -/
def dedupKeepFirst : List String → List String
  | [] => []
  | x :: rest => x :: dedupKeepFirst (rest.filter (fun y => y ≠ x))
termination_by l => l.length
decreasing_by
  simp only [List.length_cons]
  exact Nat.lt_succ_of_le (List.length_filter_le _ _)

/-- `getDataFlowSources` (src/unnamed/part_004 lines 496-506), with an
explicit recursion-depth budget: the JavaScript body recurses through
`flow.source` with **no visited set**, so the budget is what lets the
function exist as a total Lean term.  `none` means the budget was
exhausted, i.e. the source recursion reached that depth without
returning. -/
def getDataFlowSourcesF (g : List (String × DataFlowE)) : Nat → DataFlowE → Option (List String)
  | 0, _ => none
  | fuel + 1, flow =>
    match flow.source with
    | none => some []
    | some s =>
      match lookupG g s with
      | none => some (dedupKeepFirst [s])
      | some sourceFlow =>
        (getDataFlowSourcesF g fuel sourceFlow).map (fun rest => dedupKeepFirst (s :: rest))

mutual

/-- `findDataFlowSinks` (src/unnamed/part_004 lines 508-517) with the same
explicit budget: scan every graph entry, collect ids whose edge's source
is `nodeId` or whose argument list contains `nodeId`, recursing into the
sinks of each collected id (again with no visited set in the source). -/
def findDataFlowSinksF (g : List (String × DataFlowE)) : Nat → String → Option (List String)
  | 0, _ => none
  | fuel + 1, nodeId => (sinksLoop g fuel nodeId g).map dedupKeepFirst
termination_by fuel _ => (fuel, 0)

/-- The `for (const [id, flow] of this.dataFlowGraph.entries())` loop body
of `findDataFlowSinks`, over the remaining entries. -/
def sinksLoop (g : List (String × DataFlowE)) (fuel : Nat) (nodeId : String) :
    List (String × DataFlowE) → Option (List String)
  | [] => some []
  | (id, flow) :: rest =>
    if flow.source = some nodeId ∨ nodeId ∈ flow.arguments.getD [] then
      match findDataFlowSinksF g fuel id with
      | none => none
      | some sub =>
        (sinksLoop g fuel nodeId rest).map (fun tail => id :: (sub ++ tail))
    else sinksLoop g fuel nodeId rest
termination_by l => (fuel, l.length + 1)

end

/-- The graph built from the single statement `a = a;`:
`trackAssignment` stores `a ↦ {type: assignment, source: a}`. -/
def selfAssignGraph : List (String × DataFlowE) :=
  [("a", ⟨"assignment", some "a", none⟩)]

/-! ## AST model and pattern matcher (src/unnamed/part_004)

AST nodes as a closed sum over the node kinds the matcher and the
data-flow builder inspect; `other` carries the `type` string of any other
node kind.  Object properties are `some (key, value)` for a `Property`
member and `none` for any other member (e.g. a spread element); array
elements are `none` for holes. -/

inductive JSValue where
  | str (s : String)
  | num (n : Int)
  | boolean (b : Bool)
  | null
deriving DecidableEq, Repr

/-- JavaScript `String(value)` on a literal value. -/
def jsValueToString : JSValue → String
  | .str s => s
  | .num n => toString n
  | .boolean true => "true"
  | .boolean false => "false"
  | .null => "null"

inductive JSNode where
  | literal (value : JSValue)
  | templateLiteral (quasis : List String)
  | ident (name : String)
  | thisExpr
  | member (object : JSNode) (prop : JSNode)
  | assignment (operator : String) (left : JSNode) (right : JSNode)
  | call (callee : JSNode) (arguments : List JSNode)
  | objectExpr (properties : List (Option (JSNode × JSNode)))
  | arrayExpr (elements : List (Option JSNode))
  | other (kind : String)

/-- The `type` tag of a node (`AST_NODE_TYPES`). -/
def JSNode.typeOf : JSNode → String
  | .literal _ => "Literal"
  | .templateLiteral _ => "TemplateLiteral"
  | .ident _ => "Identifier"
  | .thisExpr => "ThisExpression"
  | .member _ _ => "MemberExpression"
  | .assignment _ _ _ => "AssignmentExpression"
  | .call _ _ => "CallExpression"
  | .objectExpr _ => "ObjectExpression"
  | .arrayExpr _ => "ArrayExpression"
  | .other kind => kind

/-- `getNodeId` (src/unnamed/part_004 lines 216-227): identifiers yield
their name; a member expression combines the recursively derived ids of
its object and property with a dot when both exist (`obj && prop ?
`${obj}.${prop}` : undefined`, so an empty — JavaScript-falsy — side also
yields `undefined`); every other kind yields `undefined`. -/
def getNodeId : JSNode → Option String
  | .ident name => some name
  | .member object prop =>
    match getNodeId object, getNodeId prop with
    | some obj, some prp => if obj ≠ "" ∧ prp ≠ "" then some (obj ++ "." ++ prp) else none
    | _, _ => none
  | _ => none

/-- The flow-identity relation that `getNodeId` computes: nested chains of
identifiers joined by dots. -/
inductive IdChain : JSNode → String → Prop where
  | ident (name : String) : IdChain (.ident name) name
  | member {o p : JSNode} {s t : String} :
      IdChain o s → IdChain p t → s ≠ "" → t ≠ "" → IdChain (.member o p) (s ++ "." ++ t)

/-- Modelled from the spec: the flow-node-id derivation exactly as the
claim states it — a bare identifier yields its name, a two-level static
member access with bare-identifier object and property yields
`object.property`, and every other node shape yields no id. -/
def claimFlowId : JSNode → Option String
  | .ident name => some name
  | .member (.ident object) (.ident prop) => some (object ++ "." ++ prop)
  | _ => none

/-- JavaScript truthiness of a string that may be `undefined`:
`undefined` and the empty string are falsy. -/
def strTruthy : Option String → Bool
  | some s => !(s == "")
  | none => false

/-- A pattern object as the matcher sees it: a JavaScript object with the
optional fields read by the `match*` functions.  Both the top-level
`CodePattern` and nested `ExpressionPattern`s are values of this one
shape, as in the dynamically-typed source (`pattern: any`), where a field
a given pattern flavour does not declare reads as `undefined`.  The
`regex` field is the source's `regex?: string`
(src/src/types/index.ts line 33); it is compiled by `new RegExp` at
match time, which can throw. -/
inductive Pat where
  | mk
    (type : Option String)
    (name : Option String)
    (regex : Option String)
    (value : Option JSValue)
    (properties : Option (List (String × Pat)))
    (elements : Option (List Pat))
    (object : Option String)
    (property : Option String)
    (operator : Option String)
    (left : Option Pat)
    (right : Option Pat)
    (arguments : Option (List Pat))
    (pattern : Option Pat)
    (nodeType : Option String)

def Pat.type : Pat → Option String
  | ⟨t, _, _, _, _, _, _, _, _, _, _, _, _, _⟩ => t

def Pat.name : Pat → Option String
  | ⟨_, n, _, _, _, _, _, _, _, _, _, _, _, _⟩ => n

def Pat.regex : Pat → Option String
  | ⟨_, _, r, _, _, _, _, _, _, _, _, _, _, _⟩ => r

def Pat.value : Pat → Option JSValue
  | ⟨_, _, _, v, _, _, _, _, _, _, _, _, _, _⟩ => v

def Pat.properties : Pat → Option (List (String × Pat))
  | ⟨_, _, _, _, ps, _, _, _, _, _, _, _, _, _⟩ => ps

def Pat.elements : Pat → Option (List Pat)
  | ⟨_, _, _, _, _, es, _, _, _, _, _, _, _, _⟩ => es

def Pat.object : Pat → Option String
  | ⟨_, _, _, _, _, _, o, _, _, _, _, _, _, _⟩ => o

def Pat.property : Pat → Option String
  | ⟨_, _, _, _, _, _, _, pr, _, _, _, _, _, _⟩ => pr

def Pat.operator : Pat → Option String
  | ⟨_, _, _, _, _, _, _, _, op, _, _, _, _, _⟩ => op

def Pat.left : Pat → Option Pat
  | ⟨_, _, _, _, _, _, _, _, _, l, _, _, _, _⟩ => l

def Pat.right : Pat → Option Pat
  | ⟨_, _, _, _, _, _, _, _, _, _, r, _, _, _⟩ => r

def Pat.arguments : Pat → Option (List Pat)
  | ⟨_, _, _, _, _, _, _, _, _, _, _, args, _, _⟩ => args

def Pat.pattern : Pat → Option Pat
  | ⟨_, _, _, _, _, _, _, _, _, _, _, _, pp, _⟩ => pp

def Pat.nodeType : Pat → Option String
  | ⟨_, _, _, _, _, _, _, _, _, _, _, _, _, nt⟩ => nt

/-- The all-`undefined` pattern object. -/
def patNone : Pat :=
  ⟨none, none, none, none, none, none, none, none, none, none, none, none, none, none⟩

/-- An `ObjectExpression` sub-pattern with a declared property list. -/
def objPatOf (pps : List (String × Pat)) : Pat :=
  ⟨some "ObjectExpression", none, none, none, some pps, none, none, none, none, none, none,
    none, none, none⟩

/-- An `ArrayExpression` sub-pattern with a declared element list. -/
def arrPatOf (eps : List Pat) : Pat :=
  ⟨some "ArrayExpression", none, none, none, none, some eps, none, none, none, none, none,
    none, none, none⟩

/-- A `Literal` sub-pattern requiring an exact value. -/
def litPatOf (v : JSValue) : Pat :=
  ⟨some "Literal", none, none, some v, none, none, none, none, none, none, none, none,
    none, none⟩

/-- A `Literal` sub-pattern carrying only a regex string. -/
def litRegexPatOf (r : String) : Pat :=
  ⟨some "Literal", none, some r, none, none, none, none, none, none, none, none, none,
    none, none⟩

/-- The nested sub-pattern
`{type: 'CallExpression', arguments: [{type: 'Literal', regex: '('}]}`. -/
def badCallSub : Pat :=
  ⟨some "CallExpression", none, none, none, none, none, none, none, none, none, none,
    some [litRegexPatOf "("], none, none⟩

/-- The top-level `CodePattern`
`{type: 'CallExpression', pattern: badCallSub}`: a type-legal pattern
whose only regex field is the malformed `"("`. -/
def badRegexPat : Pat :=
  ⟨some "CallExpression", none, none, none, none, none, none, none, none, none, none,
    none, some badCallSub, none⟩

/-- The ECMAScript `RegExp` constructor as the matcher consumes it: given
the pattern string, either the compiled regex's `test` predicate, or the
`SyntaxError` message `new RegExp` throws on a malformed pattern.  The
constructor is a JavaScript builtin, external to this repository, so the
matcher takes it as a parameter. -/
abbrev RegExpEngine := String → Except String (String → Bool)

/-- A regex engine on which compilation always succeeds — the regex-total
fragment, in which the matcher provably never throws. -/
def totalEngine (f : String → String → Bool) : RegExpEngine :=
  fun r => .ok (f r)

/-- Modelled from the spec: the one fact about the external ECMAScript
`RegExp` builtin that the C8 counterexample needs — `new RegExp("(")`
throws a `SyntaxError` (unterminated group).  Every other string this
development asks it for would compile; the compiled `test` semantics are
never consulted by any claim, so they are modelled as constantly
`false`. -/
def jsRegExpFragment : RegExpEngine :=
  fun r =>
    if r = "(" then .error "SyntaxError: Invalid regular expression"
    else .ok (fun _ => false)

/-- Key extraction in `matchObjectPattern` (src/unnamed/part_004 lines
432-433): identifier keys yield their name, literal keys `String(value)`,
anything else `null`. -/
def keyOfProp : JSNode → Option String
  | .ident name => some name
  | .literal v => some (jsValueToString v)
  | _ => none

/-- `matchMemberExpression` (src/unnamed/part_004 lines 306-341).  Called
both with the top-level `CodePattern` (which carries a nested `pattern`
field) and, via `matchExpressionPattern`, with sub-patterns (which do
not, so the object/property checks are skipped — as in the source). -/
def matchMemberExpression (node : JSNode) (p : Pat) : Bool :=
  match node with
  | .member object prop =>
    if !(p.type == some "MemberExpression") then false
    else
      match p.pattern with
      | some pp =>
        if pp.type == some "MemberExpression" then
          let objFail :=
            if strTruthy pp.object then
              match object with
              | .ident objName => !(some objName == pp.object)
              | .thisExpr => !(pp.object == some "this")
              | _ => false
            else false
          if objFail then false
          else
            let propFail :=
              if strTruthy pp.property then
                match prop with
                | .ident propName => !(some propName == pp.property)
                | .literal (.str s) => !(some s == pp.property)
                | _ => false
              else false
            if propFail then false else true
        else true
      | none => true
  | _ => false

/-- `matchLiteralPattern` (src/unnamed/part_004 lines 385-396): when no
exact value is required and a (truthy) regex string is present,
`new RegExp(pattern.regex)` is compiled — which can throw — and tested
against `String(node.value)`. -/
def matchLiteralPattern (engine : RegExpEngine) (node : JSNode) (p : Pat) :
    Except String Bool :=
  match node with
  | .literal value =>
    if p.type == some "Literal" then
      match p.value with
      | some pv => .ok (value == pv)
      | none =>
        if strTruthy p.regex then
          match engine (p.regex.getD "") with
          | .ok test => .ok (test (jsValueToString value))
          | .error e => .error e
        else .ok true
    else .ok false
  | _ => .ok false

/-- `matchTemplateLiteralPattern` (src/unnamed/part_004 lines 398-409):
the regex is compiled and tested against the concatenation of the raw
quasis. -/
def matchTemplateLiteralPattern (engine : RegExpEngine) (node : JSNode) (p : Pat) :
    Except String Bool :=
  match node with
  | .templateLiteral quasis =>
    if !(p.type == some "TemplateLiteral") then .ok false
    else
      if strTruthy p.regex then
        match engine (p.regex.getD "") with
        | .ok test => .ok (test (String.join quasis))
        | .error e => .error e
      else .ok true
  | _ => .ok false

/-- `matchIdentifierPattern` (src/unnamed/part_004 lines 411-422). -/
def matchIdentifierPattern (engine : RegExpEngine) (node : JSNode) (p : Pat) :
    Except String Bool :=
  match node with
  | .ident name =>
    if p.type == some "Identifier" then
      if strTruthy p.name then .ok (some name == p.name)
      else
        if strTruthy p.regex then
          match engine (p.regex.getD "") with
          | .ok test => .ok (test name)
          | .error e => .error e
        else .ok true
    else .ok false
  | _ => .ok false

mutual

/-- `matchCallExpression` (src/unnamed/part_004 lines 279-304). -/
def matchCallExpression (engine : RegExpEngine) : JSNode → Pat → Except String Bool
  | .call callee arguments, p =>
    if !(p.type == some "CallExpression") then .ok false
    else
      let nameFail :=
        match p.pattern with
        | some pp =>
          if pp.type == some "CallExpression" then
            match callee with
            | .ident calleeName => strTruthy pp.name && !(some calleeName == pp.name)
            | _ => false
          else false
        | none => false
      if nameFail then .ok false
      else
        match p.pattern with
        | some pp =>
          if pp.type == some "CallExpression" then
            match pp.arguments with
            | some argPats =>
              if !(arguments.length == argPats.length) then .ok false
              else matchArgsEvery engine arguments argPats
            | none => .ok true
          else .ok true
        | none => .ok true
  | _, _ => .ok false
termination_by n _ => (sizeOf n, 5)

/-- `matchArgumentPattern` (src/unnamed/part_004 lines 368-383). -/
def matchArgumentPattern (engine : RegExpEngine) : JSNode → Pat → Except String Bool
  | .literal v, p => matchLiteralPattern engine (.literal v) p
  | .templateLiteral qs, p => matchTemplateLiteralPattern engine (.templateLiteral qs) p
  | .ident n, p => matchIdentifierPattern engine (.ident n) p
  | .objectExpr props, p => matchObjectPattern engine (.objectExpr props) p
  | .arrayExpr elems, p => matchArrayPattern engine (.arrayExpr elems) p
  | _, _ => .ok false
termination_by n _ => (sizeOf n, 2)

/-- `matchObjectPattern` (src/unnamed/part_004 lines 424-441). -/
def matchObjectPattern (engine : RegExpEngine) : JSNode → Pat → Except String Bool
  | .objectExpr properties, p =>
    if !(p.type == some "ObjectExpression") then .ok false
    else
      match p.properties with
      | some pps => matchPropsSome engine properties pps
      | none => .ok true
  | _, _ => .ok false
termination_by n _ => (sizeOf n, 1)

/-- The `node.properties.some(prop => ...)` loop of `matchObjectPattern`:
`Array.prototype.some` visits members left to right, stops at the first
`true`, and propagates an exception thrown by the callback;
non-`Property` members contribute `false`. -/
def matchPropsSome (engine : RegExpEngine) :
    List (Option (JSNode × JSNode)) → List (String × Pat) → Except String Bool
  | [], _ => .ok false
  | none :: rest, pps => matchPropsSome engine rest pps
  | some (key, value) :: rest, pps =>
    match matchPatPropsSome engine key value pps with
    | .error e => .error e
    | .ok true => .ok true
    | .ok false => matchPropsSome engine rest pps
termination_by l _ => (sizeOf l, 9)

/-- The inner `pattern.properties.some(patternProp => ...)` test of
`matchObjectPattern`: key equality against the extracted key (`null`
never equals a pattern key), and — only when the key matches, since `&&`
short-circuits — a recursive value match. -/
def matchPatPropsSome (engine : RegExpEngine) (key value : JSNode) :
    List (String × Pat) → Except String Bool
  | [] => .ok false
  | (pk, pv) :: rest =>
    if (match keyOfProp key with
        | some k => pk == k
        | none => false) then
      match matchExpressionPattern engine value pv with
      | .error e => .error e
      | .ok true => .ok true
      | .ok false => matchPatPropsSome engine key value rest
    else matchPatPropsSome engine key value rest
termination_by l => (sizeOf value, 10 + sizeOf l)

/-- `matchArrayPattern` (src/unnamed/part_004 lines 443-458). -/
def matchArrayPattern (engine : RegExpEngine) : JSNode → Pat → Except String Bool
  | .arrayExpr elements, p =>
    if !(p.type == some "ArrayExpression") then .ok false
    else
      match p.elements with
      | some eps =>
        if !(eps.length == elements.length) then .ok false
        else matchElemsEvery engine elements eps
      | none => .ok true
  | _, _ => .ok false
termination_by n _ => (sizeOf n, 1)

/-- The `pattern.elements.every((elementPattern, index) => ...)` loop of
`matchArrayPattern` (lengths already equal): `every` stops at the first
`false` and propagates exceptions; a hole (`null` element) fails its
positional pattern before the sub-match is evaluated (`&&`
short-circuit). -/
def matchElemsEvery (engine : RegExpEngine) :
    List (Option JSNode) → List Pat → Except String Bool
  | some e :: rest, ep :: eprest =>
    match matchExpressionPattern engine e ep with
    | .error err => .error err
    | .ok false => .ok false
    | .ok true => matchElemsEvery engine rest eprest
  | none :: _, _ :: _ => .ok false
  | _, _ => .ok true
termination_by l _ => (sizeOf l, 9)

/-- The `pattern.pattern.arguments.every((argPattern, i) => ...)` loop of
`matchCallExpression` (lengths already equal): `every` stops at the first
`false` and propagates exceptions. -/
def matchArgsEvery (engine : RegExpEngine) : List JSNode → List Pat → Except String Bool
  | a :: as, ap :: aps =>
    match matchArgumentPattern engine a ap with
    | .error e => .error e
    | .ok false => .ok false
    | .ok true => matchArgsEvery engine as aps
  | _, _ => .ok true
termination_by l _ => (sizeOf l, 9)

/-- `matchExpressionPattern` (src/unnamed/part_004 lines 460-477).  The
member case consults no regex and cannot throw. -/
def matchExpressionPattern (engine : RegExpEngine) : JSNode → Pat → Except String Bool
  | .literal v, p => matchLiteralPattern engine (.literal v) p
  | .ident n, p => matchIdentifierPattern engine (.ident n) p
  | .member o pr, p => .ok (matchMemberExpression (.member o pr) p)
  | .call c args, p => matchCallExpression engine (.call c args) p
  | .objectExpr props, p => matchObjectPattern engine (.objectExpr props) p
  | .arrayExpr elems, p => matchArrayPattern engine (.arrayExpr elems) p
  | _, _ => .ok false
termination_by n _ => (sizeOf n, 6)

end

/-- `matchAssignmentExpression` (src/unnamed/part_004 lines 343-366):
the left sub-pattern is matched first; a `false` returns before the right
sub-pattern is evaluated, and a thrown error propagates. -/
def matchAssignmentExpression (engine : RegExpEngine) : JSNode → Pat → Except String Bool
  | .assignment operator left right, p =>
    if !(p.type == some "AssignmentExpression") then .ok false
    else if strTruthy p.operator && !(some operator == p.operator) then .ok false
    else
      match (match p.left with
          | some lp => matchExpressionPattern engine left lp
          | none => .ok true) with
      | .error e => .error e
      | .ok false => .ok false
      | .ok true =>
        match (match p.right with
            | some rp => matchExpressionPattern engine right rp
            | none => .ok true) with
        | .error e => .error e
        | .ok false => .ok false
        | .ok true => .ok true
  | _, _ => .ok false

/-- `matchesPattern` (src/unnamed/part_004 lines 260-277): top-level
dispatch — optional `nodeType` equality guard, then the per-kind matcher
for call, member and assignment nodes, `false` for every other node
kind. -/
def matchesPattern (engine : RegExpEngine) (node : JSNode) (p : Pat) : Except String Bool :=
  if strTruthy p.nodeType && !(some node.typeOf == p.nodeType) then .ok false
  else
    match node with
    | .call _ _ => matchCallExpression engine node p
    | .member _ _ => .ok (matchMemberExpression node p)
    | .assignment _ _ _ => matchAssignmentExpression engine node p
    | _ => .ok false

/-! ## Severity filter (src/unnamed/part_004, `filterBySeverity`) -/

inductive Severity where
  | low | medium | high | critical
deriving DecidableEq, Repr

/-- The string form of a severity, as it appears in the JSON data. -/
def Severity.toStr : Severity → String
  | .low => "low"
  | .medium => "medium"
  | .high => "high"
  | .critical => "critical"

/-- `const severityLevels = ['low', 'medium', 'high', 'critical']`
(src/unnamed/part_004 line 628). -/
def severityLevels : List String := ["low", "medium", "high", "critical"]

/-- `Array.prototype.indexOf` over the severity table (all inputs here are
members, so the JavaScript `-1` case cannot arise). -/
def idxOf : List String → String → Nat
  | [], _ => 0
  | x :: rest, s => if x = s then 0 else idxOf rest s + 1

/-- A vulnerability record as far as filtering and the cache need it
(`Vulnerability` in src/src/types/index.ts: `severity` and the natural key
`summary`). -/
structure VulnRec where
  severity : Severity
  summary : String
deriving DecidableEq, Repr

/-- A scan finding (`ScanResult`): the filter reads only
`result.vulnerability.severity`; the payload stands for the remaining
fields. -/
structure ScanResultM where
  vulnerability : VulnRec
  payload : Nat
deriving DecidableEq, Repr

/-- `filterBySeverity` (src/unnamed/part_004 lines 627-635). -/
def filterBySeverity (minSeverity : Severity) (results : List ScanResultM) : List ScanResultM :=
  let minSeverityIndex := idxOf severityLevels minSeverity.toStr
  results.filter (fun result =>
    decide (idxOf severityLevels result.vulnerability.severity.toStr ≥ minSeverityIndex))

/-- The ordering index the specification names: `low < medium < high <
critical`. -/
def sevIdx : Severity → Nat
  | .low => 0
  | .medium => 1
  | .high => 2
  | .critical => 3

/-! ## Parallel scan (src/src/parallel/scanner.worker.ts, scanner.ts)

The worker's file loop and the orchestrator's aggregation are embedded as
deterministic functions.  `analyze` stands for `await
scanner.scanSourceFile(file)`: `.ok rs` when the promise resolves with
findings `rs`, `.error e` when it rejects.  Messages posted with
`parentPort.postMessage` are collected in order. -/

inductive WMsg (α : Type) where
  | progress (filePath : String)
  | errorEvt (filePath : String) (message : String)
  | resultMsg (data : List α)
deriving DecidableEq, Repr

/-- One iteration of the `for (const file of files)` loop in
`scanner.worker.ts` lines 23-43: on success push the findings (the
`if (fileResults.length > 0)` guard is behaviourally the identity on the
accumulated list) and post a `progress` message; on a caught error post an
`error` message and continue. -/
def workerStep {α : Type} (analyze : String → Except String (List α)) :
    List α × List (WMsg α) → String → List α × List (WMsg α)
  | (results, msgs), file =>
    match analyze file with
    | .ok fileResults =>
      (results ++ fileResults, msgs ++ [WMsg.progress file])
    | .error e =>
      (results, msgs ++ [WMsg.errorEvt file e])

/-- The full message trace of `run()` in `scanner.worker.ts`: the per-file
loop followed by the final `result` message carrying the accumulated
findings. -/
def workerRun {α : Type} (analyze : String → Except String (List α)) (files : List String) :
    List (WMsg α) :=
  let (results, msgs) := files.foldl (workerStep analyze) ([], [])
  msgs ++ [WMsg.resultMsg results]

/-- The `message` handler of `createWorker` (scanner.ts lines 75-90):
`result` messages extend the result buffer, `progress` and `error`
messages do not touch it. -/
def collectWorker {α : Type} : List (WMsg α) → List α
  | [] => []
  | WMsg.resultMsg rs :: rest => rs ++ collectWorker rest
  | _ :: rest => collectWorker rest

/-- The `exit` handler of `createWorker` (scanner.ts lines 94-100): a
non-zero exit code rejects the worker promise, exit code `0` resolves it
with the collected results. -/
def workerOutcome {α : Type} (msgs : List (WMsg α)) (exitCode : Nat) : Except String (List α) :=
  if exitCode ≠ 0 then .error "Worker stopped with non-zero exit code"
  else .ok (collectWorker msgs)

/-- `Promise.all` over the worker promises followed by
`results.push(...workerResults.flat())` (scanner.ts lines 44-49): resolves
with the concatenation when every worker resolved, rejects when any worker
rejected. -/
def promiseAll {α : Type} : List (Except String (List α)) → Except String (List α)
  | [] => .ok []
  | .error e :: _ => .error e
  | .ok rs :: rest =>
    match promiseAll rest with
    | .ok more => .ok (rs ++ more)
    | .error e => .error e

/-- Spec-side description of what a worker should deliver: the findings of
exactly the files whose analysis succeeded, in file order. -/
def softResults {α : Type} (analyze : String → Except String (List α)) :
    List String → List α
  | [] => []
  | f :: rest =>
    match analyze f with
    | .ok rs => rs ++ softResults analyze rest
    | .error _ => softResults analyze rest

/-- Spec-side description of the soft error events: one per failed file,
keyed by path. -/
def softErrors {α : Type} (analyze : String → Except String (List α)) :
    List String → List (String × String)
  | [] => []
  | f :: rest =>
    match analyze f with
    | .ok _ => softErrors analyze rest
    | .error e => (f, e) :: softErrors analyze rest

/-- The error events present in a worker's message trace. -/
def errorEventsOf {α : Type} : List (WMsg α) → List (String × String)
  | [] => []
  | WMsg.errorEvt f e :: rest => (f, e) :: errorEventsOf rest
  | _ :: rest => errorEventsOf rest

/-- The non-result messages a worker posts, one per file: `progress` for
a file whose analysis succeeded, `error` for a caught per-file failure. -/
def traceMsgs {α : Type} (analyze : String → Except String (List α)) :
    List String → List (WMsg α)
  | [] => []
  | f :: rest =>
    (match analyze f with
      | .ok _ => WMsg.progress f
      | .error e => WMsg.errorEvt f e) :: traceMsgs analyze rest

/-- A concrete per-file analyser for the witness: the file `"bad"` fails to
parse, every other file yields one finding. -/
def exAnalyze : String → Except String (List Nat) :=
  fun f => if f = "bad" then .error "parse error" else .ok [1]

/-! ## Vulnerability cache (src/src/ml/detector.ts, `Cache` /
`VulnerabilityCache`)

The on-disk store is a key→entry map (one file per hashed key).  `get`
takes the current time because it evicts entries older than the TTL;
`set` stamps the entry with the current time. -/

/-- A cache entry (`CacheEntry<DatabaseEntry>`). -/
structure CEntry where
  timestamp : Nat
  etag : Option String
  data : List (String × List VulnRec)
deriving DecidableEq, Repr

/-- Association-list lookup of the first binding of a key. -/
def alLookup {β : Type} : List (String × β) → String → Option β
  | [], _ => none
  | (k, v) :: rest, key => if k = key then some v else alLookup rest key

/-- JavaScript object property assignment / file overwrite: replace the
first binding of the key, else append it. -/
def alSet {β : Type} : List (String × β) → String → β → List (String × β)
  | [], key, v => [(key, v)]
  | (k, old) :: rest, key, v =>
    if k = key then (k, v) :: rest else (k, old) :: alSet rest key v

/-- File deletion: remove the binding of the key. -/
def alDelete {β : Type} : List (String × β) → String → List (String × β)
  | [], _ => []
  | (k, v) :: rest, key => if k = key then rest else (k, v) :: alDelete rest key

/-- `Cache.get` (detector.ts cache lines 144-165): absent key yields
nothing; an entry with `now - timestamp > ttl` is deleted and treated as
absent; otherwise the entry is returned.  The second component is the
store as left behind by the read. -/
def cacheGet (now ttl : Nat) (c : List (String × CEntry)) (key : String) :
    Option CEntry × List (String × CEntry) :=
  match alLookup c key with
  | none => (none, c)
  | some entry =>
    if now - entry.timestamp > ttl then (none, alDelete c key)
    else (some entry, c)

/-- `Cache.set` (lines 167-184): write a fresh entry stamped `now`. -/
def cacheSet (now : Nat) (c : List (String × CEntry)) (key : String)
    (data : List (String × List VulnRec)) (etag : Option String) : List (String × CEntry) :=
  alSet c key ⟨now, etag, data⟩

/-- The replace-or-append step of `updateVulnerability` (lines 245-254):
`findIndex` on summary equality, then index assignment or `push`. -/
def updateVulnList (l : List VulnRec) (v : VulnRec) : List VulnRec :=
  match l.findIdx? (fun r => r.summary == v.summary) with
  | some index => l.set index v
  | none => l ++ [v]

/-- `VulnerabilityCache.updateVulnerability` (detector.ts lines 233-258). -/
def updateVulnerability (now ttl : Nat) (c : List (String × CEntry))
    (url packageName : String) (v : VulnRec) : List (String × CEntry) :=
  match cacheGet now ttl c url with
  | (none, c') => c'
  | (some cached, c') =>
    let pkgList := (alLookup cached.data packageName).getD []
    let db := alSet cached.data packageName (updateVulnList pkgList v)
    cacheSet now c' url db cached.etag

/-- A concrete cache entry for C10: stored at time `0` with an etag and
one package (`"other"`) carrying one vulnerability. -/
def c10entry : CEntry :=
  ⟨0, some "etag-1", [("other", [⟨.low, "existing"⟩])]⟩

/-! ## Spec-side 3-tuple comparison

The specification's comparison: lexicographic over the 3-tuple
`(major, minor, patch)`, missing trailing components defaulting to `0`. -/

/-- The 3-tuple `(major, minor, patch)` of a component list, missing
trailing components defaulting to `0`. -/
def verTriple (l : List Nat) : Nat × Nat × Nat :=
  (l.getD 0 0, l.getD 1 0, l.getD 2 0)

/-- Spec-side strict lexicographic order on version triples. -/
def specLt (x y : Nat × Nat × Nat) : Prop :=
  x.1 < y.1 ∨ (x.1 = y.1 ∧ (x.2.1 < y.2.1 ∨ (x.2.1 = y.2.1 ∧ x.2.2 < y.2.2)))

/-- Spec-side non-strict lexicographic order on version triples. -/
def specLe (x y : Nat × Nat × Nat) : Prop :=
  x.1 < y.1 ∨ (x.1 = y.1 ∧ (x.2.1 < y.2.1 ∨ (x.2.1 = y.2.1 ∧ x.2.2 ≤ y.2.2)))

instance (x y : Nat × Nat × Nat) : Decidable (specLt x y) := by
  unfold specLt; infer_instance

instance (x y : Nat × Nat × Nat) : Decidable (specLe x y) := by
  unfold specLe; infer_instance

/-- Zero-padding of a component list to exactly three components. -/
def pad3 (l : List Nat) : List Nat :=
  [l.getD 0 0, l.getD 1 0, l.getD 2 0]

theorem compareVersions_pad3 (x y : List Nat) (hx : x.length ≤ 3) (hy : y.length ≤ 3) :
    compareVersions x y = compareVersions (pad3 x) (pad3 y) := by
  match x, hx with
  | [], _ => ?_
  | [x0], _ => ?_
  | [x0, x1], _ => ?_
  | [x0, x1, x2], _ => ?_
  all_goals
    match y, hy with
    | [], _ => simp [pad3, compareVersions, cmpTail, cmpHead]
    | [y0], _ => simp [pad3, compareVersions, cmpTail, cmpHead]
    | [y0, y1], _ => simp [pad3, compareVersions, cmpTail, cmpHead]
    | [y0, y1, y2], _ => simp [pad3, compareVersions, cmpTail, cmpHead]

theorem compareVersions3_lt (a0 a1 a2 b0 b1 b2 : Nat) :
    compareVersions [a0, a1, a2] [b0, b1, b2] < 0 ↔ specLt (a0, a1, a2) (b0, b1, b2) := by
  simp only [compareVersions, cmpTail, specLt]
  split_ifs <;> omega

theorem compareVersions3_ge (a0 a1 a2 b0 b1 b2 : Nat) :
    compareVersions [a0, a1, a2] [b0, b1, b2] ≥ 0 ↔ specLe (b0, b1, b2) (a0, a1, a2) := by
  simp only [compareVersions, cmpTail, specLe]
  split_ifs <;> omega

theorem pad3_verTriple (l : List Nat) : pad3 l = [(verTriple l).1, (verTriple l).2.1, (verTriple l).2.2] := rfl

theorem verTriple_take3 (l : List Nat) : verTriple (l.take 3) = verTriple l := by
  match l with
  | [] => rfl
  | [a] => rfl
  | [a, b] => rfl
  | a :: b :: c :: rest => rfl

theorem length_take3 (l : List Nat) : (l.take 3).length ≤ 3 := by
  simp [List.length_take]

/-- Sign of `compareVersions` on a truncated version against an at-most-3
component bound, phrased through the spec triples. -/
theorem compareVersions_take3_lt (v a : List Nat) (ha : a.length ≤ 3) :
    compareVersions (v.take 3) a < 0 ↔ specLt (verTriple v) (verTriple a) := by
  rw [compareVersions_pad3 _ _ (length_take3 v) ha, pad3_verTriple, pad3_verTriple,
    verTriple_take3]
  exact compareVersions3_lt _ _ _ _ _ _

theorem compareVersions_take3_ge (v b : List Nat) (hb : b.length ≤ 3) :
    compareVersions (v.take 3) b ≥ 0 ↔ specLe (verTriple b) (verTriple v) := by
  rw [compareVersions_pad3 _ _ (length_take3 v) hb, pad3_verTriple, pad3_verTriple,
    verTriple_take3]
  exact compareVersions3_ge _ _ _ _ _ _

/-! ## Order facts about the spec-side comparison -/

theorem not_specLt_iff (x y : Nat × Nat × Nat) : ¬ specLt x y ↔ specLe y x := by
  obtain ⟨x1, x2, x3⟩ := x
  obtain ⟨y1, y2, y3⟩ := y
  simp only [specLt, specLe]
  omega

theorem specLt_irrefl (x : Nat × Nat × Nat) : ¬ specLt x x := by
  obtain ⟨x1, x2, x3⟩ := x
  simp only [specLt]
  omega

theorem isVersionInRange_singleton (v : List Nat) (r : VRange) :
    isVersionInRange v [r] = rangeCheck (v.take 3) r := by
  simp [isVersionInRange]

theorem rangeCheck_some_some (nv a b : List Nat) :
    rangeCheck nv ⟨some a, some b⟩ = true ↔
      ¬ compareVersions nv a < 0 ∧ compareVersions nv b < 0 := by
  constructor
  · intro h
    by_cases h1 : compareVersions nv a < 0
    · simp [rangeCheck, h1] at h
    · by_cases h2 : compareVersions nv b ≥ 0
      · simp [rangeCheck, h1, h2] at h
      · exact ⟨h1, by omega⟩
  · rintro ⟨h1, h2⟩
    have h2' : ¬ compareVersions nv b ≥ 0 := by omega
    simp [rangeCheck, h1, h2']

theorem rangeCheck_some_none (nv a : List Nat) :
    rangeCheck nv ⟨some a, none⟩ = true ↔ ¬ compareVersions nv a < 0 := by
  by_cases h1 : compareVersions nv a < 0 <;> simp [rangeCheck, h1]

theorem rangeCheck_none_some (nv b : List Nat) :
    rangeCheck nv ⟨none, some b⟩ = true ↔ compareVersions nv b < 0 := by
  constructor
  · intro h
    by_cases h2 : compareVersions nv b ≥ 0
    · simp [rangeCheck, h2] at h
    · omega
  · intro h2
    have h2' : ¬ compareVersions nv b ≥ 0 := by omega
    simp [rangeCheck, h2']

/-! ## Legacy encoding facts (src/src/scanner.js, `_parseVersion`) -/

theorem parseVersionNum_le_iff (a b : List Nat)
    (ha1 : a.getD 1 0 < 100) (ha2 : a.getD 2 0 < 100)
    (hb1 : b.getD 1 0 < 100) (hb2 : b.getD 2 0 < 100) :
    parseVersionNum a ≤ parseVersionNum b ↔ specLe (verTriple a) (verTriple b) := by
  simp only [parseVersionNum, verTriple, specLe]
  omega

theorem parseVersionNum_lt_iff (a b : List Nat)
    (ha1 : a.getD 1 0 < 100) (ha2 : a.getD 2 0 < 100)
    (hb1 : b.getD 1 0 < 100) (hb2 : b.getD 2 0 < 100) :
    parseVersionNum a < parseVersionNum b ↔ specLt (verTriple a) (verTriple b) := by
  simp only [parseVersionNum, verTriple, specLt]
  omega

theorem parseVersionNum_eq_zero (b : List Nat) :
    parseVersionNum b = 0 ↔ verTriple b = (0, 0, 0) := by
  simp only [parseVersionNum, verTriple, Prod.mk.injEq]
  omega

/-!
## C1 — version range matching against 3-tuple comparison

The claim is **false as stated**: the legacy `_isVersionVulnerable`
(src/src/scanner.js) compares versions through the packed encoding
`major * 10000 + minor * 100 + patch`, which is not order-isomorphic to
3-tuple comparison once a minor or patch component reaches 100, and on
`part_004`'s `isVersionInRange` the clause "true for `v = a`" fails for an
empty range with `a = b`.  The amended claim (with `a < b` for the
`v = a` clause, and the legacy matcher restricted to minor/patch
components below 100 and a `below` bound other than `0.0.0`) holds.
-/

/-- C1 (counterexample): `_isVersionVulnerable` reports `0.100.0` as
inside `[1.0.0, 2.0.0)` because its packed encoding collides with
`1.0.0`, yet `1.0.0 ≤ 0.100.0` is false under 3-tuple comparison; and
`isVersionInRange` returns `false` for `v = a` when `a = b`, against the
claim's unconditional "true for `v = a`". -/
theorem version_range_claim_counterexample :
    isVersionVulnerableJs [0, 100, 0] [⟨some [1, 0, 0], some [2, 0, 0]⟩] = true
    ∧ ¬ specLe (verTriple [1, 0, 0]) (verTriple [0, 100, 0])
    ∧ isVersionInRange [1, 0, 0] [⟨some [1, 0, 0], some [1, 0, 0]⟩] = false := by
  refine ⟨by decide, by decide, by decide⟩

/-- C1 (amended): for bounds of at most three components,
`isVersionInRange` decides `a ≤ v < b` under 3-tuple comparison exactly
as claimed, single-bound ranges are half-open, `v = b` is excluded, and
`v = a` is included whenever `a < b`; `_isVersionVulnerable` agrees with
the 3-tuple semantics provided the minor and patch components involved
stay below 100 and the `below` bound is not `0.0.0`. -/
theorem version_range_tuple_semantics :
    ∀ (v a b : List Nat), a.length ≤ 3 → b.length ≤ 3 →
      (isVersionInRange v [⟨some a, some b⟩] = true ↔
          specLe (verTriple a) (verTriple v) ∧ specLt (verTriple v) (verTriple b))
      ∧ (isVersionInRange v [⟨some a, none⟩] = true ↔ specLe (verTriple a) (verTriple v))
      ∧ (isVersionInRange v [⟨none, some b⟩] = true ↔ specLt (verTriple v) (verTriple b))
      ∧ isVersionInRange b [⟨some a, some b⟩] = false
      ∧ (specLt (verTriple a) (verTriple b) → isVersionInRange a [⟨some a, some b⟩] = true)
      ∧ (v.getD 1 0 < 100 → v.getD 2 0 < 100 → a.getD 1 0 < 100 → a.getD 2 0 < 100 →
          b.getD 1 0 < 100 → b.getD 2 0 < 100 → verTriple b ≠ (0, 0, 0) →
          (isVersionVulnerableJs v [⟨some a, some b⟩] = true ↔
            specLe (verTriple a) (verTriple v) ∧ specLt (verTriple v) (verTriple b))) := by
  intro v a b ha hb
  have hva := compareVersions_take3_lt v a ha
  have hvb := compareVersions_take3_lt v b hb
  have hgb := compareVersions_take3_ge v b hb
  refine ⟨?_, ?_, ?_, ?_, ?_, ?_⟩
  · rw [isVersionInRange_singleton, rangeCheck_some_some, hva, hvb, not_specLt_iff]
  · rw [isVersionInRange_singleton, rangeCheck_some_none, hva, not_specLt_iff]
  · rw [isVersionInRange_singleton, rangeCheck_none_some, hvb]
  · rw [isVersionInRange_singleton]
    have h2 : compareVersions (b.take 3) b ≥ 0 :=
      (compareVersions_take3_ge b b hb).mpr ((not_specLt_iff _ _).mp (specLt_irrefl _))
    by_cases h1 : compareVersions (b.take 3) a < 0 <;> simp [rangeCheck, h1, h2]
  · intro hab
    rw [isVersionInRange_singleton]
    have h1 : ¬ compareVersions (a.take 3) a < 0 := by
      rw [compareVersions_take3_lt a a ha]
      exact specLt_irrefl _
    have h2 : compareVersions (a.take 3) b < 0 := (compareVersions_take3_lt a b hb).mpr hab
    have h2' : ¬ compareVersions (a.take 3) b ≥ 0 := by omega
    simp [rangeCheck, h1, h2']
  · intro hv1 hv2 ha1 ha2 hb1 hb2 hbz
    have hbnz : parseVersionNum b ≠ 0 := fun h => hbz ((parseVersionNum_eq_zero b).mp h)
    by_cases haz : parseVersionNum a = 0
    · have haT : verTriple a = (0, 0, 0) := (parseVersionNum_eq_zero a).mp haz
      have hle : specLe (verTriple a) (verTriple v) := by
        rw [haT]
        obtain ⟨t1, t2, t3⟩ := verTriple v
        simp only [specLe]
        omega
      simp only [isVersionVulnerableJs, List.any_cons, List.any_nil, Bool.or_false,
        rangeVulnJs, Option.map_some', numTruthy, haz, decide_False, Bool.false_and,
        if_false, if_neg, Option.getD_some]
      simp [haz, hbnz, hle, parseVersionNum_lt_iff v b hv1 hv2 hb1 hb2]
    · simp only [isVersionVulnerableJs, List.any_cons, List.any_nil, Bool.or_false,
        rangeVulnJs, Option.map_some', numTruthy, Option.getD_some]
      simp [haz, hbnz, parseVersionNum_le_iff a v ha1 ha2 hv1 hv2,
        parseVersionNum_lt_iff v b hv1 hv2 hb1 hb2]

/-- Witness for C1's amended theorem at `v = 1.7.1`, `a = 1.5.0`,
`b = 1.8.0` (the spec's own §8 example). -/
theorem version_range_tuple_semantics_witness :
    isVersionInRange [1, 7, 1] [⟨some [1, 5, 0], some [1, 8, 0]⟩] = true
    ∧ isVersionVulnerableJs [1, 7, 1] [⟨some [1, 5, 0], some [1, 8, 0]⟩] = true := by
  have h := version_range_tuple_semantics [1, 7, 1] [1, 5, 0] [1, 8, 0] (by decide) (by decide)
  refine ⟨h.1.mpr (by decide), ?_⟩
  exact (h.2.2.2.2.2 (by decide) (by decide) (by decide) (by decide) (by decide) (by decide)
    (by decide)).mpr (by decide)

/-!
## C3 — a range with neither bound

The claim is **false as stated** on `part_004`: `isVersionInRange`'s
per-range callback returns `true` when both guards are skipped, so a
bound-less range matches *every* version there; only the legacy
`_isVersionVulnerable` (scanner.js) falls through to `return false`.
-/

/-- C3 (counterexample): `isVersionInRange` accepts `1.0.0` against the
bound-less range, where the claim requires `false`. -/
theorem unbounded_range_counterexample :
    isVersionInRange [1, 0, 0] [⟨none, none⟩] = true := by decide

/-- C3 (amended): a range with neither bound matches every version under
`part_004`'s `isVersionInRange` and no version under scanner.js's
`_isVersionVulnerable`. -/
theorem unbounded_range_semantics :
    ∀ v : List Nat,
      isVersionInRange v [⟨none, none⟩] = true
      ∧ isVersionVulnerableJs v [⟨none, none⟩] = false := by
  intro v
  constructor
  · simp [isVersionInRange, rangeCheck]
  · simp [isVersionVulnerableJs, rangeVulnJs, numTruthy]

/-!
## C4 — unparseable dependency versions

The claim is **false as stated**: `"latest"` (or `"*"`) sanitises to the
empty string, which `split('.').map(Number)` turns into `[0]` — i.e. the
version `0.0.0` — because `Number('') === 0`.  Version `0.0.0` is
*inside* every range that has no lower bound and a positive upper bound,
so such dependencies are reported vulnerable there.  The never-throws
half of the claim holds (the embedded pipeline is total).
-/

theorem cmpTail_lt (b : List Nat) : cmpTail b < 0 ↔ ∃ x ∈ b, x ≠ 0 := by
  induction b with
  | nil => simp [cmpTail]
  | cons y ys ih =>
    by_cases hy : y = 0
    · simp [cmpTail, hy, ih]
    · have hne : (0 : Nat) ≠ y := fun hc => hy hc.symm
      simp only [cmpTail, if_pos hne, List.mem_cons]
      constructor
      · intro _; exact ⟨y, Or.inl rfl, hy⟩
      · intro _; omega

theorem cmpTail_ge (b : List Nat) : cmpTail b ≥ 0 ↔ ∀ x ∈ b, x = 0 := by
  induction b with
  | nil => simp [cmpTail]
  | cons y ys ih =>
    by_cases hy : y = 0
    · simp [cmpTail, hy, ih]
    · have hne : (0 : Nat) ≠ y := fun hc => hy hc.symm
      simp only [cmpTail, if_pos hne, List.mem_cons]
      constructor
      · intro hge; omega
      · intro hall; exact absurd (hall y (Or.inl rfl)) hy

theorem cmpHead_zero (l : List Nat) (h : ∀ x ∈ l, x = 0) : cmpHead l = 0 := by
  induction l with
  | nil => simp [cmpHead]
  | cons y ys ih =>
    have hy : y = 0 := h y (List.mem_cons_self y ys)
    simp [cmpHead, hy, ih (fun x hx => h x (List.mem_cons_of_mem y hx))]

theorem compareVersions_zero_left_lt :
    ∀ (v a : List Nat), (∀ x ∈ v, x = 0) →
      (compareVersions v a < 0 ↔ ∃ x ∈ a, x ≠ 0)
  | [], a, _ => by simpa [compareVersions] using cmpTail_lt a
  | x :: xs, [], h => by
    have hx : x = 0 := h x (List.mem_cons_self x xs)
    have hz := cmpHead_zero xs (fun y hy => h y (List.mem_cons_of_mem x hy))
    simp [compareVersions, hx, hz]
  | x :: xs, b :: bs, h => by
    have hx : x = 0 := h x (List.mem_cons_self x xs)
    have ih := compareVersions_zero_left_lt xs bs
      (fun y hy => h y (List.mem_cons_of_mem x hy))
    by_cases hb : b = 0
    · simp [compareVersions, hx, hb, ih]
    · have hne : x ≠ b := by omega
      simp only [compareVersions, if_pos hne, List.mem_cons]
      constructor
      · intro _; exact ⟨b, Or.inl rfl, hb⟩
      · intro _; omega

theorem compareVersions_zero_left_ge :
    ∀ (v b : List Nat), (∀ x ∈ v, x = 0) →
      (compareVersions v b ≥ 0 ↔ ∀ x ∈ b, x = 0)
  | [], b, _ => by simpa [compareVersions] using cmpTail_ge b
  | x :: xs, [], h => by
    have hx : x = 0 := h x (List.mem_cons_self x xs)
    have hz := cmpHead_zero xs (fun y hy => h y (List.mem_cons_of_mem x hy))
    simp [compareVersions, hx, hz]
  | x :: xs, b :: bs, h => by
    have hx : x = 0 := h x (List.mem_cons_self x xs)
    have ih := compareVersions_zero_left_ge xs bs
      (fun y hy => h y (List.mem_cons_of_mem x hy))
    by_cases hb : b = 0
    · simp [compareVersions, hx, hb, ih]
    · have hne : x ≠ b := by omega
      simp only [compareVersions, if_pos hne, List.mem_cons]
      constructor
      · intro hge; omega
      · intro hall; exact absurd (hall b (Or.inl rfl)) hb

theorem splitDots_all_dots :
    ∀ (l : List Char), (∀ c ∈ l, c = '.') → ∀ comp ∈ splitDots l, comp = ([] : List Char) := by
  intro l
  induction l with
  | nil =>
    intro _ comp hcomp
    simp [splitDots] at hcomp
    exact hcomp
  | cons c rest ih =>
    intro h comp hcomp
    have hc : c = '.' := h c (List.mem_cons_self c rest)
    rw [splitDots, if_pos hc] at hcomp
    rcases List.mem_cons.mp hcomp with heq | hmem
    · exact heq
    · exact ih (fun d hd => h d (List.mem_cons_of_mem c hd)) comp hmem

theorem parseVersionParts_digitless (s : String) (h : ∀ c ∈ s.data, ¬ c.isDigit) :
    ∀ x ∈ parseVersionParts (cleanVersion s), x = 0 := by
  intro x hx
  have hchars : ∀ c ∈ (cleanVersion s).data, c = '.' := by
    intro c hc
    simp only [cleanVersion, String.data] at hc
    have hmem := List.mem_filter.mp hc
    have hnd := h c hmem.1
    rcases Bool.or_eq_true_iff.mp hmem.2 with hd | hdot
    · exact absurd hd hnd
    · exact eq_of_beq hdot
  simp only [parseVersionParts, List.mem_map] at hx
  obtain ⟨comp, hcomp, hparse⟩ := hx
  have : comp = [] := splitDots_all_dots _ hchars comp hcomp
  rw [this] at hparse
  simpa [parseComp] using hparse.symm

/-- C4 (counterexample): the dependency version `"latest"` — which has no
digits — is reported vulnerable against the range `below 1.0.0`, where
the claim requires "not vulnerable against every range". -/
theorem unparseable_version_counterexample :
    depVulnerable "latest" [⟨none, some [1, 0, 0]⟩] = true := by decide

/-- C4 (amended): a dependency whose version string has no digits is
scanned as version `0.0.0` (sanitisation yields components that all parse
to `0`), so it is *not* vulnerable in any range whose `atOrAbove` bound
has a nonzero component — regardless of the `below` bound — but it *is*
vulnerable in any range with no lower bound and a `below` bound with a
nonzero component; the pipeline never throws (it is a total function). -/
theorem unparseable_version_semantics :
    ∀ (s : String) (a b : List Nat) (ob : Option (List Nat)),
      (∀ c ∈ s.data, ¬ c.isDigit) →
      ((∃ x ∈ a, x ≠ 0) → depVulnerable s [⟨some a, ob⟩] = false)
      ∧ ((∃ x ∈ b, x ≠ 0) → depVulnerable s [⟨none, some b⟩] = true) := by
  intro s a b ob hnd
  have hz : ∀ x ∈ parseVersionParts (cleanVersion s), x = 0 :=
    parseVersionParts_digitless s hnd
  have hz3 : ∀ x ∈ (parseVersionParts (cleanVersion s)).take 3, x = 0 :=
    fun x hx => hz x (List.take_subset 3 _ hx)
  constructor
  · intro hane
    unfold depVulnerable
    rw [isVersionInRange_singleton]
    have h1 : compareVersions ((parseVersionParts (cleanVersion s)).take 3) a < 0 :=
      (compareVersions_zero_left_lt _ a hz3).mpr hane
    simp [rangeCheck, h1]
  · intro hbne
    unfold depVulnerable
    rw [isVersionInRange_singleton]
    have h2 : ¬ compareVersions ((parseVersionParts (cleanVersion s)).take 3) b ≥ 0 := by
      rw [compareVersions_zero_left_ge _ b hz3]
      intro hall
      obtain ⟨x, hx, hxne⟩ := hbne
      exact hxne (hall x hx)
    simp [rangeCheck, h2]

/-- Witness for C4's amended theorem at the digit-free version string
`"latest"`. -/
theorem unparseable_version_semantics_witness :
    depVulnerable "latest" [⟨some [1, 5, 0], some [1, 8, 0]⟩] = false
    ∧ depVulnerable "latest" [⟨none, some [1, 8, 0]⟩] = true := by
  have h := unparseable_version_semantics "latest" [1, 5, 0] [1, 8, 0] (some [1, 8, 0])
    (by decide)
  exact ⟨h.1 (by decide), h.2 (by decide)⟩

/-!
## C2 — data-flow queries on a cyclic graph

The claim (and spec §4.3/§9) promises an explicit visited-set guard:
"if a source id has already been visited, stop without re-adding".  The
source of `getDataFlowSources` and `findDataFlowSinks`
(src/unnamed/part_004 lines 496-517) has **no visited set** — only a
final `[...new Set(...)]` deduplication of the result — so on the graph
of `a = a;` both queries recurse without bound (a stack overflow at run
time).  The code therefore contradicts the spec: a code bug.
-/

/-- C2 (code-bug evidence): on the graph built from `a = a;`, no
recursion budget, however large, lets either taint query finish — the
recursion visits `a` again at every depth, so the claimed termination
with a finite deduplicated set is violated by the code. -/
theorem dataflow_cycle_divergence :
    (∀ fuel : Nat,
      getDataFlowSourcesF selfAssignGraph fuel ⟨"assignment", some "a", none⟩ = none)
    ∧ (∀ fuel : Nat, findDataFlowSinksF selfAssignGraph fuel "a" = none) := by
  constructor
  · intro fuel
    induction fuel with
    | zero => simp [getDataFlowSourcesF]
    | succ n ih =>
      simp only [selfAssignGraph] at ih
      simp [getDataFlowSourcesF, selfAssignGraph, lookupG, ih]
  · intro fuel
    induction fuel with
    | zero => simp [findDataFlowSinksF]
    | succ n ih =>
      simp only [selfAssignGraph] at ih
      simp [findDataFlowSinksF, sinksLoop, selfAssignGraph, ih]

/-!
## C9 — flow-node-id derivation

The claim is **false as stated**: `getNodeId` recurses through member
expressions, so a three-level chain `a.b.c` receives the id `"a.b.c"`
(and a computed access with an identifier key is likewise included),
where the claim admits only bare identifiers and two-level accesses.
-/

/-- C9 (counterexample): the three-level member chain `a.b.c` receives a
flow id from `getNodeId`, while the claim's derivation (`claimFlowId`,
modelled from the spec sentence) yields none for it. -/
theorem flow_id_counterexample :
    getNodeId (.member (.member (.ident "a") (.ident "b")) (.ident "c")) = some "a.b.c"
    ∧ claimFlowId (.member (.member (.ident "a") (.ident "b")) (.ident "c")) = none := by
  exact ⟨rfl, rfl⟩

/-- C9 (amended): `getNodeId` yields an id exactly on nested identifier
chains — a bare identifier yields its name, and a member access yields
`objectId.propertyId` whenever both sides themselves have non-empty ids,
so arbitrarily deep static chains are included; every other node shape
yields no id. -/
theorem flow_id_characterisation :
    ∀ (n : JSNode) (s : String), getNodeId n = some s ↔ IdChain n s
  | .ident name, s => by
    simp only [getNodeId, Option.some.injEq]
    constructor
    · intro h; rw [← h]; exact IdChain.ident name
    · intro h; cases h; rfl
  | .member o p, s => by
    have iho := flow_id_characterisation o
    have ihp := flow_id_characterisation p
    constructor
    · intro h
      simp only [getNodeId] at h
      cases hgo : getNodeId o with
      | none => rw [hgo] at h; exact absurd h (by simp)
      | some so =>
        cases hgp : getNodeId p with
        | none => rw [hgo, hgp] at h; exact absurd h (by simp)
        | some sp =>
          rw [hgo, hgp] at h
          dsimp only at h
          by_cases hcond : so ≠ "" ∧ sp ≠ ""
          · rw [if_pos hcond] at h
            have hs : so ++ "." ++ sp = s := Option.some.inj h
            rw [← hs]
            exact IdChain.member ((iho so).mp hgo) ((ihp sp).mp hgp) hcond.1 hcond.2
          · rw [if_neg hcond] at h
            exact absurd h (by simp)
    · intro h
      cases h with
      | member hco hcp hne1 hne2 =>
        have h1 := (iho _).mpr hco
        have h2 := (ihp _).mpr hcp
        simp only [getNodeId, h1, h2]
        rw [if_pos ⟨hne1, hne2⟩]
  | .literal v, s => ⟨fun h => by simp [getNodeId] at h, fun h => nomatch h⟩
  | .templateLiteral qs, s => ⟨fun h => by simp [getNodeId] at h, fun h => nomatch h⟩
  | .thisExpr, s => ⟨fun h => by simp [getNodeId] at h, fun h => nomatch h⟩
  | .assignment op l r, s => ⟨fun h => by simp [getNodeId] at h, fun h => nomatch h⟩
  | .call c args, s => ⟨fun h => by simp [getNodeId] at h, fun h => nomatch h⟩
  | .objectExpr props, s => ⟨fun h => by simp [getNodeId] at h, fun h => nomatch h⟩
  | .arrayExpr elems, s => ⟨fun h => by simp [getNodeId] at h, fun h => nomatch h⟩
  | .other kind, s => ⟨fun h => by simp [getNodeId] at h, fun h => nomatch h⟩

/-!
## C5 — ObjectExpression is existential, ArrayExpression is universal
-/

theorem keyMatch_iff (key : JSNode) (pk : String) :
    (match keyOfProp key with
      | some k => pk == k
      | none => false) = true ↔ keyOfProp key = some pk := by
  cases hk : keyOfProp key with
  | none => simp
  | some k =>
    dsimp only
    rw [beq_iff_eq, Option.some.injEq]
    exact eq_comm

/-! Errors of the matcher originate only in regex compilation: every
`.error` a matcher function returns is an `.error` of the engine. -/

theorem matchLiteralPattern_error (engine : RegExpEngine) (n : JSNode) (p : Pat) (e : String)
    (h : matchLiteralPattern engine n p = .error e) : ∃ r, engine r = .error e := by
  cases n
  case literal value =>
    simp only [matchLiteralPattern] at h
    split at h
    · split at h
      · exact Except.noConfusion h
      · split at h
        · split at h
          · exact Except.noConfusion h
          · rename_i err heq
            rw [Except.error.injEq] at h
            subst h
            exact ⟨p.regex.getD "", heq⟩
        · exact Except.noConfusion h
    · exact Except.noConfusion h
  all_goals simp [matchLiteralPattern] at h

theorem matchTemplateLiteralPattern_error (engine : RegExpEngine) (n : JSNode) (p : Pat)
    (e : String) (h : matchTemplateLiteralPattern engine n p = .error e) :
    ∃ r, engine r = .error e := by
  cases n
  case templateLiteral quasis =>
    simp only [matchTemplateLiteralPattern] at h
    split at h
    · exact Except.noConfusion h
    · split at h
      · split at h
        · exact Except.noConfusion h
        · rename_i err heq
          rw [Except.error.injEq] at h
          subst h
          exact ⟨p.regex.getD "", heq⟩
      · exact Except.noConfusion h
  all_goals simp [matchTemplateLiteralPattern] at h

theorem matchIdentifierPattern_error (engine : RegExpEngine) (n : JSNode) (p : Pat)
    (e : String) (h : matchIdentifierPattern engine n p = .error e) :
    ∃ r, engine r = .error e := by
  cases n
  case ident name =>
    simp only [matchIdentifierPattern] at h
    split at h
    · split at h
      · exact Except.noConfusion h
      · split at h
        · split at h
          · exact Except.noConfusion h
          · rename_i err heq
            rw [Except.error.injEq] at h
            subst h
            exact ⟨p.regex.getD "", heq⟩
        · exact Except.noConfusion h
    · exact Except.noConfusion h
  all_goals simp [matchIdentifierPattern] at h

mutual

theorem matchCallExpression_error (engine : RegExpEngine) :
    ∀ (n : JSNode) (p : Pat) (e : String),
      matchCallExpression engine n p = .error e → ∃ r, engine r = .error e
  | n, p, e, h => by
    cases n
    case call callee arguments =>
      simp only [matchCallExpression] at h
      repeat' split at h
      all_goals
        first
          | exact Except.noConfusion h
          | exact matchArgsEvery_error engine _ _ _ h
    all_goals simp [matchCallExpression] at h
termination_by n _ _ _ => (sizeOf n, 5)
decreasing_by all_goals (subst_vars; decreasing_tactic)

theorem matchArgumentPattern_error (engine : RegExpEngine) :
    ∀ (n : JSNode) (p : Pat) (e : String),
      matchArgumentPattern engine n p = .error e → ∃ r, engine r = .error e
  | n, p, e, h => by
    cases n
    case literal v =>
      simp only [matchArgumentPattern] at h
      exact matchLiteralPattern_error engine (.literal v) p e h
    case templateLiteral qs =>
      simp only [matchArgumentPattern] at h
      exact matchTemplateLiteralPattern_error engine (.templateLiteral qs) p e h
    case ident nm =>
      simp only [matchArgumentPattern] at h
      exact matchIdentifierPattern_error engine (.ident nm) p e h
    case objectExpr props =>
      simp only [matchArgumentPattern] at h
      exact matchObjectPattern_error engine (.objectExpr props) p e h
    case arrayExpr elems =>
      simp only [matchArgumentPattern] at h
      exact matchArrayPattern_error engine (.arrayExpr elems) p e h
    all_goals simp [matchArgumentPattern] at h
termination_by n _ _ _ => (sizeOf n, 2)
decreasing_by all_goals (subst_vars; decreasing_tactic)

theorem matchObjectPattern_error (engine : RegExpEngine) :
    ∀ (n : JSNode) (p : Pat) (e : String),
      matchObjectPattern engine n p = .error e → ∃ r, engine r = .error e
  | n, p, e, h => by
    cases n
    case objectExpr properties =>
      simp only [matchObjectPattern] at h
      split at h
      · exact Except.noConfusion h
      · split at h
        · exact matchPropsSome_error engine properties _ e h
        · exact Except.noConfusion h
    all_goals simp [matchObjectPattern] at h
termination_by n _ _ _ => (sizeOf n, 1)
decreasing_by all_goals (subst_vars; decreasing_tactic)

theorem matchPropsSome_error (engine : RegExpEngine) :
    ∀ (props : List (Option (JSNode × JSNode))) (pps : List (String × Pat)) (e : String),
      matchPropsSome engine props pps = .error e → ∃ r, engine r = .error e
  | [], _, e, h => by simp [matchPropsSome] at h
  | none :: rest, pps, e, h =>
    matchPropsSome_error engine rest pps e (by simpa [matchPropsSome] using h)
  | some (key, value) :: rest, pps, e, h => by
    simp only [matchPropsSome] at h
    split at h
    · rename_i err heq
      rw [Except.error.injEq] at h
      subst h
      exact matchPatPropsSome_error engine key value pps err heq
    · exact Except.noConfusion h
    · exact matchPropsSome_error engine rest pps e h
termination_by l _ _ _ => (sizeOf l, 9)

theorem matchPatPropsSome_error (engine : RegExpEngine) (key value : JSNode) :
    ∀ (l : List (String × Pat)) (e : String),
      matchPatPropsSome engine key value l = .error e → ∃ r, engine r = .error e
  | [], e, h => by simp [matchPatPropsSome] at h
  | (pk, pv) :: rest, e, h => by
    simp only [matchPatPropsSome] at h
    split at h
    · split at h
      · rename_i err heq
        rw [Except.error.injEq] at h
        subst h
        exact matchExpressionPattern_error engine value pv err heq
      · exact Except.noConfusion h
      · exact matchPatPropsSome_error engine key value rest e h
    · exact matchPatPropsSome_error engine key value rest e h
termination_by l _ _ => (sizeOf value, 10 + sizeOf l)

theorem matchArrayPattern_error (engine : RegExpEngine) :
    ∀ (n : JSNode) (p : Pat) (e : String),
      matchArrayPattern engine n p = .error e → ∃ r, engine r = .error e
  | n, p, e, h => by
    cases n
    case arrayExpr elements =>
      simp only [matchArrayPattern] at h
      repeat' split at h
      all_goals
        first
          | exact Except.noConfusion h
          | exact matchElemsEvery_error engine _ _ _ h
    all_goals simp [matchArrayPattern] at h
termination_by n _ _ _ => (sizeOf n, 1)
decreasing_by all_goals (subst_vars; decreasing_tactic)

theorem matchElemsEvery_error (engine : RegExpEngine) :
    ∀ (elems : List (Option JSNode)) (eps : List Pat) (e : String),
      matchElemsEvery engine elems eps = .error e → ∃ r, engine r = .error e
  | some el :: rest, ep :: eprest, e, h => by
    simp only [matchElemsEvery] at h
    split at h
    · rename_i err heq
      rw [Except.error.injEq] at h
      subst h
      exact matchExpressionPattern_error engine el ep err heq
    · exact Except.noConfusion h
    · exact matchElemsEvery_error engine rest eprest e h
  | none :: _, _ :: _, e, h => by simp [matchElemsEvery] at h
  | [], _, e, h => by simp [matchElemsEvery] at h
  | some _ :: _, [], e, h => by simp [matchElemsEvery] at h
  | none :: _, [], e, h => by simp [matchElemsEvery] at h
termination_by l _ _ _ => (sizeOf l, 9)

theorem matchArgsEvery_error (engine : RegExpEngine) :
    ∀ (args : List JSNode) (ps : List Pat) (e : String),
      matchArgsEvery engine args ps = .error e → ∃ r, engine r = .error e
  | a :: as, ap :: aps, e, h => by
    simp only [matchArgsEvery] at h
    split at h
    · rename_i err heq
      rw [Except.error.injEq] at h
      subst h
      exact matchArgumentPattern_error engine a ap err heq
    · exact Except.noConfusion h
    · exact matchArgsEvery_error engine as aps e h
  | [], _, e, h => by simp [matchArgsEvery] at h
  | _ :: _, [], e, h => by simp [matchArgsEvery] at h
termination_by l _ _ _ => (sizeOf l, 9)

theorem matchExpressionPattern_error (engine : RegExpEngine) :
    ∀ (n : JSNode) (p : Pat) (e : String),
      matchExpressionPattern engine n p = .error e → ∃ r, engine r = .error e
  | n, p, e, h => by
    cases n
    case literal v =>
      simp only [matchExpressionPattern] at h
      exact matchLiteralPattern_error engine (.literal v) p e h
    case ident nm =>
      simp only [matchExpressionPattern] at h
      exact matchIdentifierPattern_error engine (.ident nm) p e h
    case call c args =>
      simp only [matchExpressionPattern] at h
      exact matchCallExpression_error engine (.call c args) p e h
    case objectExpr props =>
      simp only [matchExpressionPattern] at h
      exact matchObjectPattern_error engine (.objectExpr props) p e h
    case arrayExpr elems =>
      simp only [matchExpressionPattern] at h
      exact matchArrayPattern_error engine (.arrayExpr elems) p e h
    all_goals simp [matchExpressionPattern] at h
termination_by n _ _ _ => (sizeOf n, 6)
decreasing_by all_goals (subst_vars; decreasing_tactic)

end

theorem matchAssignmentExpression_error (engine : RegExpEngine) (n : JSNode) (p : Pat)
    (e : String) (h : matchAssignmentExpression engine n p = .error e) :
    ∃ r, engine r = .error e := by
  cases n
  case assignment operator left right =>
    simp only [matchAssignmentExpression] at h
    split at h
    · exact Except.noConfusion h
    · split at h
      · exact Except.noConfusion h
      · split at h
        · rename_i err heq
          rw [Except.error.injEq] at h
          subst h
          split at heq
          · exact matchExpressionPattern_error engine left _ err heq
          · exact Except.noConfusion heq
        · exact Except.noConfusion h
        · split at h
          · rename_i err heq
            rw [Except.error.injEq] at h
            subst h
            split at heq
            · exact matchExpressionPattern_error engine right _ err heq
            · exact Except.noConfusion heq
          · exact Except.noConfusion h
          · exact Except.noConfusion h
  all_goals simp [matchAssignmentExpression] at h

theorem matchesPattern_error (engine : RegExpEngine) (n : JSNode) (p : Pat) (e : String)
    (h : matchesPattern engine n p = .error e) : ∃ r, engine r = .error e := by
  simp only [matchesPattern] at h
  split at h
  · exact Except.noConfusion h
  · split at h
    · exact matchCallExpression_error engine _ p e h
    · exact Except.noConfusion h
    · exact matchAssignmentExpression_error engine _ p e h
    · exact Except.noConfusion h

/-! With a regex engine on which compilation always succeeds, no matcher
function can return an error. -/

theorem matchExpressionPattern_totalEngine_ok (f : String → String → Bool) (n : JSNode)
    (p : Pat) : ∃ b, matchExpressionPattern (totalEngine f) n p = .ok b := by
  cases hres : matchExpressionPattern (totalEngine f) n p with
  | ok b => exact ⟨b, rfl⟩
  | error e =>
    obtain ⟨r, hr⟩ := matchExpressionPattern_error (totalEngine f) n p e hres
    exact absurd hr (by simp [totalEngine])

theorem matchPatPropsSome_totalEngine_ok (f : String → String → Bool) (key value : JSNode)
    (pps : List (String × Pat)) :
    ∃ b, matchPatPropsSome (totalEngine f) key value pps = .ok b := by
  cases hres : matchPatPropsSome (totalEngine f) key value pps with
  | ok b => exact ⟨b, rfl⟩
  | error e =>
    obtain ⟨r, hr⟩ := matchPatPropsSome_error (totalEngine f) key value pps e hres
    exact absurd hr (by simp [totalEngine])

theorem matchesPattern_totalEngine_ok (f : String → String → Bool) (n : JSNode) (p : Pat) :
    ∃ b, matchesPattern (totalEngine f) n p = .ok b := by
  cases hres : matchesPattern (totalEngine f) n p with
  | ok b => exact ⟨b, rfl⟩
  | error e =>
    obtain ⟨r, hr⟩ := matchesPattern_error (totalEngine f) n p e hres
    exact absurd hr (by simp [totalEngine])

theorem matchPatPropsSome_iff (f : String → String → Bool) (key value : JSNode) :
    ∀ pps : List (String × Pat),
      (matchPatPropsSome (totalEngine f) key value pps = .ok true ↔
        ∃ pk pv, (pk, pv) ∈ pps ∧ keyOfProp key = some pk
          ∧ matchExpressionPattern (totalEngine f) value pv = .ok true)
  | [] => by simp [matchPatPropsSome]
  | (pk0, pv0) :: tl => by
    have ih := matchPatPropsSome_iff f key value tl
    by_cases hkey : (match keyOfProp key with
        | some k => pk0 == k
        | none => false) = true
    · obtain ⟨b, hb⟩ := matchExpressionPattern_totalEngine_ok f value pv0
      cases b with
      | true =>
        constructor
        · intro _
          exact ⟨pk0, pv0, List.mem_cons_self _ _, (keyMatch_iff key pk0).mp hkey, hb⟩
        · intro _
          simp [matchPatPropsSome, hkey, hb]
      | false =>
        rw [show matchPatPropsSome (totalEngine f) key value ((pk0, pv0) :: tl)
            = matchPatPropsSome (totalEngine f) key value tl from by
          simp [matchPatPropsSome, hkey, hb], ih]
        constructor
        · rintro ⟨pk, pv, hmem, hk, hv⟩
          exact ⟨pk, pv, List.mem_cons_of_mem _ hmem, hk, hv⟩
        · rintro ⟨pk, pv, hmem, hk, hv⟩
          rcases List.mem_cons.mp hmem with heq | hmem'
          · rw [Prod.mk.injEq] at heq
            obtain ⟨rfl, rfl⟩ := heq
            exact absurd (hb.symm.trans hv) (by simp)
          · exact ⟨pk, pv, hmem', hk, hv⟩
    · rw [show matchPatPropsSome (totalEngine f) key value ((pk0, pv0) :: tl)
          = matchPatPropsSome (totalEngine f) key value tl from by
        simp [matchPatPropsSome, hkey], ih]
      constructor
      · rintro ⟨pk, pv, hmem, hk, hv⟩
        exact ⟨pk, pv, List.mem_cons_of_mem _ hmem, hk, hv⟩
      · rintro ⟨pk, pv, hmem, hk, hv⟩
        rcases List.mem_cons.mp hmem with heq | hmem'
        · rw [Prod.mk.injEq] at heq
          obtain ⟨rfl, rfl⟩ := heq
          exact absurd ((keyMatch_iff key pk).mpr hk) hkey
        · exact ⟨pk, pv, hmem', hk, hv⟩

theorem matchPropsSome_iff (f : String → String → Bool) :
    ∀ (props : List (Option (JSNode × JSNode))) (pps : List (String × Pat)),
      (matchPropsSome (totalEngine f) props pps = .ok true ↔
        ∃ k v, some (k, v) ∈ props ∧ ∃ pk pv, (pk, pv) ∈ pps
          ∧ keyOfProp k = some pk
          ∧ matchExpressionPattern (totalEngine f) v pv = .ok true)
  | [], pps => by simp [matchPropsSome]
  | none :: rest, pps => by
    have ih := matchPropsSome_iff f rest pps
    rw [show matchPropsSome (totalEngine f) (none :: rest) pps
        = matchPropsSome (totalEngine f) rest pps from by simp [matchPropsSome], ih]
    constructor
    · rintro ⟨k, v, hmem, hrest⟩
      exact ⟨k, v, List.mem_cons_of_mem _ hmem, hrest⟩
    · rintro ⟨k, v, hmem, hrest⟩
      rcases List.mem_cons.mp hmem with heq | hmem'
      · exact (Option.some_ne_none _ heq).elim
      · exact ⟨k, v, hmem', hrest⟩
  | some (k0, v0) :: rest, pps => by
    have ih := matchPropsSome_iff f rest pps
    have hpp := matchPatPropsSome_iff f k0 v0 pps
    obtain ⟨b, hb⟩ := matchPatPropsSome_totalEngine_ok f k0 v0 pps
    cases b with
    | true =>
      rw [show matchPropsSome (totalEngine f) (some (k0, v0) :: rest) pps = .ok true from by
        simp [matchPropsSome, hb]]
      constructor
      · intro _
        obtain ⟨pk, pv, hmem, hk, hv⟩ := hpp.mp hb
        exact ⟨k0, v0, List.mem_cons_self _ _, pk, pv, hmem, hk, hv⟩
      · intro _
        rfl
    | false =>
      rw [show matchPropsSome (totalEngine f) (some (k0, v0) :: rest) pps
          = matchPropsSome (totalEngine f) rest pps from by simp [matchPropsSome, hb], ih]
      constructor
      · rintro ⟨k, v, hmem, hrest⟩
        exact ⟨k, v, List.mem_cons_of_mem _ hmem, hrest⟩
      · rintro ⟨k, v, hmem, hrest⟩
        rcases List.mem_cons.mp hmem with heq | hmem'
        · rw [Option.some.injEq, Prod.mk.injEq] at heq
          obtain ⟨rfl, rfl⟩ := heq
          exact absurd (hb.symm.trans (hpp.mpr hrest)) (by simp)
        · exact ⟨k, v, hmem', hrest⟩

theorem matchElemsEvery_iff (f : String → String → Bool) :
    ∀ (elems : List (Option JSNode)) (eps : List Pat), elems.length = eps.length →
      (matchElemsEvery (totalEngine f) elems eps = .ok true ↔
        ∀ pair ∈ elems.zip eps, ∃ e, pair.1 = some e
          ∧ matchExpressionPattern (totalEngine f) e pair.2 = .ok true)
  | [], [], _ => by simp [matchElemsEvery]
  | some e :: rest, ep :: eprest, h => by
    have ih := matchElemsEvery_iff f rest eprest (by simpa using h)
    obtain ⟨b, hb⟩ := matchExpressionPattern_totalEngine_ok f e ep
    cases b with
    | true =>
      rw [show matchElemsEvery (totalEngine f) (some e :: rest) (ep :: eprest)
          = matchElemsEvery (totalEngine f) rest eprest from by simp [matchElemsEvery, hb],
        ih]
      simp only [List.zip_cons_cons, List.mem_cons]
      constructor
      · intro hall pair hpair
        rcases hpair with rfl | hpair
        · exact ⟨e, rfl, hb⟩
        · exact hall pair hpair
      · intro hall pair hpair
        exact hall pair (Or.inr hpair)
    | false =>
      rw [show matchElemsEvery (totalEngine f) (some e :: rest) (ep :: eprest) = .ok false
          from by simp [matchElemsEvery, hb]]
      simp only [List.zip_cons_cons, List.mem_cons]
      constructor
      · intro hfalse
        exact absurd hfalse (by simp)
      · intro hall
        obtain ⟨e', he', hm⟩ := hall (some e, ep) (Or.inl rfl)
        have hee : e = e' := Option.some.inj he'
        rw [← hee] at hm
        exact absurd (hb.symm.trans hm) (by simp)
  | none :: rest, ep :: eprest, _ => by
    rw [show matchElemsEvery (totalEngine f) (none :: rest) (ep :: eprest) = .ok false
        from by simp [matchElemsEvery]]
    simp only [List.zip_cons_cons, List.mem_cons]
    constructor
    · intro hfalse
      exact absurd hfalse (by simp)
    · intro hall
      obtain ⟨e, he, _⟩ := hall (none, ep) (Or.inl rfl)
      exact Option.noConfusion he
  | [], ep :: _, h => by simp at h
  | some _ :: _, [], h => by simp at h
  | none :: _, [], h => by simp at h

/-- C5: object-pattern matching is existential — the node matches iff
*some* node property and *some* declared pattern key/value pair agree on
the key and the value sub-pattern — while array-pattern matching is
universal: exact element-count equality and a positional match of every
element (holes fail).  Stated over an arbitrary regex-total engine
(regexes are irrelevant to the asymmetry); the claim's own example — a
node `{a: 1, b: 2}` against a pattern requiring `{a: 1, c: 3}` —
matches. -/
theorem object_existential_array_universal :
    ∀ (f : String → String → Bool) (props : List (Option (JSNode × JSNode)))
      (pps : List (String × Pat)) (elems : List (Option JSNode)) (eps : List Pat),
      (matchObjectPattern (totalEngine f) (.objectExpr props) (objPatOf pps) = .ok true ↔
        ∃ k v, some (k, v) ∈ props ∧ ∃ pk pv, (pk, pv) ∈ pps
          ∧ keyOfProp k = some pk
          ∧ matchExpressionPattern (totalEngine f) v pv = .ok true)
      ∧ (matchArrayPattern (totalEngine f) (.arrayExpr elems) (arrPatOf eps) = .ok true ↔
        eps.length = elems.length
          ∧ ∀ pair ∈ elems.zip eps, ∃ e, pair.1 = some e
              ∧ matchExpressionPattern (totalEngine f) e pair.2 = .ok true)
      ∧ matchObjectPattern (totalEngine f)
          (.objectExpr [some (.ident "a", .literal (.num 1)),
            some (.ident "b", .literal (.num 2))])
          (objPatOf [("a", litPatOf (.num 1)), ("c", litPatOf (.num 3))]) = .ok true := by
  intro f props pps elems eps
  refine ⟨?_, ?_, ?_⟩
  · rw [show matchObjectPattern (totalEngine f) (.objectExpr props) (objPatOf pps)
        = matchPropsSome (totalEngine f) props pps
      from by simp [matchObjectPattern, objPatOf, Pat.type, Pat.properties]]
    exact matchPropsSome_iff f props pps
  · by_cases hlen : eps.length = elems.length
    · rw [show matchArrayPattern (totalEngine f) (.arrayExpr elems) (arrPatOf eps)
          = matchElemsEvery (totalEngine f) elems eps
        from by simp [matchArrayPattern, arrPatOf, Pat.type, Pat.elements, hlen]]
      rw [matchElemsEvery_iff f elems eps hlen.symm]
      simp [hlen]
    · rw [show matchArrayPattern (totalEngine f) (.arrayExpr elems) (arrPatOf eps) = .ok false
        from by simp [matchArrayPattern, arrPatOf, Pat.type, Pat.elements, hlen]]
      simp [hlen]
  · simp [matchObjectPattern, objPatOf, Pat.type, Pat.properties, matchPropsSome,
      matchPatPropsSome, keyOfProp, matchExpressionPattern, matchLiteralPattern, litPatOf,
      Pat.value, jsValueToString]

/-!
## C7 — severity filter
-/

theorem idxOf_toStr (s : Severity) : idxOf severityLevels s.toStr = sevIdx s := by
  cases s <;> rfl

/-- C7: a finding passes `filterBySeverity` iff it is in the input and
the index of its severity in `low < medium < high < critical` is at least
the configured minimum's index; the output is a sublist of the input, so
retained findings keep their original relative order. -/
theorem severity_filter_characterisation :
    ∀ (minSeverity : Severity) (results : List ScanResultM),
      (∀ r, r ∈ filterBySeverity minSeverity results ↔
        r ∈ results ∧ sevIdx r.vulnerability.severity ≥ sevIdx minSeverity)
      ∧ (filterBySeverity minSeverity results).Sublist results := by
  intro m rs
  constructor
  · intro r
    simp [filterBySeverity, List.mem_filter, idxOf_toStr]
  · exact List.filter_sublist rs

/-!
## C8 — matcher failure semantics

The claim is **false as stated**: the matcher's never-throws assertion
does not survive the `regex?: string` fields.  `matchLiteralPattern`,
`matchTemplateLiteralPattern` and `matchIdentifierPattern` compile
`new RegExp(pattern.regex)` at match time (src/unnamed/part_004 lines
391, 405, 417), and the ECMAScript constructor throws a `SyntaxError` on
a malformed pattern string such as `"("` — reachable from
`matchesPattern` through a call-argument literal pattern.  What does
hold: the matcher is deterministic, unrecognized node/pattern kind
combinations return `false` without consulting any regex, and every
error it can produce is a regex-compilation error — so with an engine on
which compilation always succeeds it never throws.
-/

theorem matchCallExpression_type_ne (engine : RegExpEngine) (c : JSNode)
    (args : List JSNode) (p : Pat) (h : p.type ≠ some "CallExpression") :
    matchCallExpression engine (.call c args) p = .ok false := by
  have hb : (p.type == some "CallExpression") = false := beq_eq_false_iff_ne.mpr h
  simp [matchCallExpression, hb]

theorem matchMemberExpression_type_ne (o pr : JSNode) (p : Pat)
    (h : p.type ≠ some "MemberExpression") : matchMemberExpression (.member o pr) p = false := by
  have hb : (p.type == some "MemberExpression") = false := beq_eq_false_iff_ne.mpr h
  simp [matchMemberExpression, hb]

theorem matchAssignmentExpression_type_ne (engine : RegExpEngine) (op : String)
    (l r : JSNode) (p : Pat) (h : p.type ≠ some "AssignmentExpression") :
    matchAssignmentExpression engine (.assignment op l r) p = .ok false := by
  have hb : (p.type == some "AssignmentExpression") = false := beq_eq_false_iff_ne.mpr h
  simp [matchAssignmentExpression, hb]

/-- C8 (counterexample): at the node `foo("x")` and the type-legal
pattern `{type: 'CallExpression', pattern: {type: 'CallExpression',
arguments: [{type: 'Literal', regex: '('}]}}`, the matcher reaches
`new RegExp("(")` and throws the `SyntaxError` — `matches` does not
"never throw" for every pattern. -/
theorem matcher_throws_counterexample :
    matchesPattern jsRegExpFragment (.call (.ident "foo") [.literal (.str "x")]) badRegexPat
      = .error "SyntaxError: Invalid regular expression" := by
  simp [matchesPattern, matchCallExpression, matchArgsEvery, matchArgumentPattern,
    matchLiteralPattern, badRegexPat, badCallSub, litRegexPatOf, strTruthy, jsRegExpFragment,
    Pat.type, Pat.pattern, Pat.name, Pat.arguments, Pat.value, Pat.regex, Pat.nodeType,
    JSNode.typeOf]

/-- C8 (amended): the matcher is deterministic and pure — evaluating it
twice on the same inputs is the same result; every unrecognized
node/pattern kind combination returns `false` without consulting any
regex: a node that is not a call, member or assignment expression never
matches at top level, and neither does any pattern whose declared `type`
differs from the node's kind; and the only way `matches` can throw is by
propagating the `SyntaxError` of compiling one of the pattern's regex
fields — in particular, with a regex engine on which compilation always
succeeds it returns a boolean for every node and pattern. -/
theorem matcher_deterministic_throw_only_on_regex :
    ∀ (engine : RegExpEngine) (n : JSNode) (p : Pat),
      matchesPattern engine n p = matchesPattern engine n p
      ∧ (n.typeOf ∉ ["CallExpression", "MemberExpression", "AssignmentExpression"] →
          matchesPattern engine n p = .ok false)
      ∧ (p.type ≠ some n.typeOf → matchesPattern engine n p = .ok false)
      ∧ (∀ e, matchesPattern engine n p = .error e → ∃ r, engine r = .error e)
      ∧ (∀ f : String → String → Bool, ∃ b, matchesPattern (totalEngine f) n p = .ok b) := by
  intro engine n p
  refine ⟨rfl, ?_, ?_, matchesPattern_error engine n p,
    fun f => matchesPattern_totalEngine_ok f n p⟩
  · intro hmem
    cases n with
    | call callee args => exact absurd (by simp [JSNode.typeOf]) hmem
    | member o pr => exact absurd (by simp [JSNode.typeOf]) hmem
    | assignment op l r => exact absurd (by simp [JSNode.typeOf]) hmem
    | literal v => simp [matchesPattern]
    | templateLiteral qs => simp [matchesPattern]
    | ident nm => simp [matchesPattern]
    | thisExpr => simp [matchesPattern]
    | objectExpr props => simp [matchesPattern]
    | arrayExpr elems => simp [matchesPattern]
    | other k => simp [matchesPattern]
  · intro hne
    cases n with
    | call callee args =>
      simp only [JSNode.typeOf] at hne
      have hfalse := matchCallExpression_type_ne engine callee args p hne
      simp [matchesPattern, hfalse]
    | member o pr =>
      simp only [JSNode.typeOf] at hne
      have hfalse := matchMemberExpression_type_ne o pr p hne
      simp [matchesPattern, hfalse]
    | assignment op l r =>
      simp only [JSNode.typeOf] at hne
      have hfalse := matchAssignmentExpression_type_ne engine op l r p hne
      simp [matchesPattern, hfalse]
    | literal v => simp [matchesPattern]
    | templateLiteral qs => simp [matchesPattern]
    | ident nm => simp [matchesPattern]
    | thisExpr => simp [matchesPattern]
    | objectExpr props => simp [matchesPattern]
    | arrayExpr elems => simp [matchesPattern]
    | other k => simp [matchesPattern]

/-- Witness for C8's amended theorem: an unrecognized literal node gives
`.ok false`, and under a total regex engine the bad-regex pattern from
the counterexample no longer throws. -/
theorem matcher_deterministic_throw_only_on_regex_witness :
    matchesPattern (totalEngine (fun _ _ => false)) (.literal (.num 1)) patNone = .ok false
    ∧ ∃ b, matchesPattern (totalEngine (fun _ _ => false))
        (.call (.ident "foo") [.literal (.str "x")]) badRegexPat = .ok b := by
  have h1 := matcher_deterministic_throw_only_on_regex (totalEngine (fun _ _ => false))
    (.literal (.num 1)) patNone
  have h2 := matcher_deterministic_throw_only_on_regex (totalEngine (fun _ _ => false))
    (.call (.ident "foo") [.literal (.str "x")]) badRegexPat
  exact ⟨h1.2.1 (by decide), h2.2.2.2.2 (fun _ _ => false)⟩

/-!
## C6 — parallel scan failure asymmetry
-/

theorem workerFold_eq {α : Type} (analyze : String → Except String (List α)) :
    ∀ (files : List String) (acc : List α) (msgs : List (WMsg α)),
      files.foldl (workerStep analyze) (acc, msgs)
        = (acc ++ softResults analyze files, msgs ++ traceMsgs analyze files) := by
  intro files
  induction files with
  | nil => intro acc msgs; simp [softResults, traceMsgs]
  | cons f rest ih =>
    intro acc msgs
    cases hf : analyze f with
    | ok rs =>
      simp [workerStep, hf, ih, softResults, traceMsgs]
    | error e =>
      simp [workerStep, hf, ih, softResults, traceMsgs]

theorem workerRun_eq {α : Type} (analyze : String → Except String (List α))
    (files : List String) :
    workerRun analyze files
      = traceMsgs analyze files ++ [WMsg.resultMsg (softResults analyze files)] := by
  simp [workerRun, workerFold_eq]

theorem collectWorker_append {α : Type} (xs ys : List (WMsg α)) :
    collectWorker (xs ++ ys) = collectWorker xs ++ collectWorker ys := by
  induction xs with
  | nil => simp [collectWorker]
  | cons m rest ih =>
    cases m with
    | progress f => simp [collectWorker, ih]
    | errorEvt f e => simp [collectWorker, ih]
    | resultMsg rs => simp [collectWorker, ih]

theorem collectWorker_traceMsgs {α : Type} (analyze : String → Except String (List α))
    (files : List String) : collectWorker (traceMsgs analyze files) = [] := by
  induction files with
  | nil => rfl
  | cons f rest ih =>
    cases hf : analyze f with
    | ok rs => simp [traceMsgs, hf, collectWorker, ih]
    | error e => simp [traceMsgs, hf, collectWorker, ih]

theorem errorEventsOf_append {α : Type} (xs ys : List (WMsg α)) :
    errorEventsOf (xs ++ ys) = errorEventsOf xs ++ errorEventsOf ys := by
  induction xs with
  | nil => simp [errorEventsOf]
  | cons m rest ih =>
    cases m with
    | progress f => simp [errorEventsOf, ih]
    | errorEvt f e => simp [errorEventsOf, ih]
    | resultMsg rs => simp [errorEventsOf, ih]

theorem errorEventsOf_traceMsgs {α : Type} (analyze : String → Except String (List α))
    (files : List String) : errorEventsOf (traceMsgs analyze files) = softErrors analyze files := by
  induction files with
  | nil => rfl
  | cons f rest ih =>
    cases hf : analyze f with
    | ok rs => simp [traceMsgs, hf, errorEventsOf, softErrors, ih]
    | error e => simp [traceMsgs, hf, errorEventsOf, softErrors, ih]

/-- C6: failure isolation in the parallel scan is asymmetric.  A caught
per-file failure produces one error event, leaves the other files'
findings intact (the final result message carries exactly the successful
files' findings) and does not abort the worker: with exit code `0` the
worker resolves with those findings.  A worker that exits with a non-zero
status rejects, and one rejected worker makes the whole `Promise.all`
aggregation — hence the whole `scan()` — fail with a propagated error. -/
theorem parallel_failure_asymmetry {α : Type} :
    ∀ (analyze : String → Except String (List α)) (files : List String),
      collectWorker (workerRun analyze files) = softResults analyze files
      ∧ errorEventsOf (workerRun analyze files) = softErrors analyze files
      ∧ workerOutcome (workerRun analyze files) 0 = .ok (softResults analyze files)
      ∧ (∀ exitCode : Nat, exitCode ≠ 0 →
          workerOutcome (workerRun analyze files) exitCode =
            .error "Worker stopped with non-zero exit code")
      ∧ (∀ (pre post : List (Except String (List α))) (e : String),
          ∃ e', promiseAll (pre ++ .error e :: post) = .error e') := by
  intro analyze files
  have hcollect : collectWorker (workerRun analyze files) = softResults analyze files := by
    rw [workerRun_eq, collectWorker_append, collectWorker_traceMsgs]
    simp [collectWorker]
  refine ⟨hcollect, ?_, ?_, ?_, ?_⟩
  · rw [workerRun_eq, errorEventsOf_append, errorEventsOf_traceMsgs]
    simp [errorEventsOf]
  · simp [workerOutcome, hcollect]
  · intro exitCode hne
    simp [workerOutcome, hne]
  · intro pre post e
    induction pre with
    | nil => exact ⟨e, rfl⟩
    | cons x rest ih =>
      cases x with
      | error e0 => exact ⟨e0, rfl⟩
      | ok rs =>
        obtain ⟨e', he'⟩ := ih
        exact ⟨e', by simp [promiseAll, he']⟩

/-- Witness for C6: three files of which `"bad"` fails — the worker
reports one error event, still delivers the two successful files'
findings on exit code `0`, and a non-zero exit fails the aggregation. -/
theorem parallel_failure_asymmetry_witness :
    workerOutcome (workerRun exAnalyze ["a", "bad", "c"]) 0 = .ok [1, 1]
    ∧ workerOutcome (workerRun exAnalyze ["a", "bad", "c"]) 1 =
        .error "Worker stopped with non-zero exit code"
    ∧ errorEventsOf (workerRun exAnalyze ["a", "bad", "c"]) = [("bad", "parse error")] := by
  have h := parallel_failure_asymmetry exAnalyze ["a", "bad", "c"]
  refine ⟨?_, h.2.2.2.1 1 (by decide), ?_⟩
  · rw [h.2.2.1]
    rfl
  · rw [h.2.1]
    rfl

/-!
## C10 — frame conditions of `updateVulnerability`

The claim is **false as stated**: the `get` inside `updateVulnerability`
evicts an entry whose age exceeds the TTL, so an *existing but expired*
entry is deleted by the call — every package's vulnerability list and the
etag for that url are lost, not preserved.  For a fresh entry the claimed
frame conditions hold (with the timestamp refreshed by `set`).
-/

theorem alLookup_alSet_self {β : Type} (c : List (String × β)) (k : String) (v : β) :
    alLookup (alSet c k v) k = some v := by
  induction c with
  | nil => simp [alSet, alLookup]
  | cons kv rest ih =>
    obtain ⟨k0, v0⟩ := kv
    by_cases h : k0 = k
    · simp [alSet, alLookup, h]
    · simp [alSet, alLookup, h, ih]

theorem alLookup_alSet_ne {β : Type} (c : List (String × β)) (k k' : String) (v : β)
    (h : k' ≠ k) : alLookup (alSet c k v) k' = alLookup c k' := by
  induction c with
  | nil =>
    have : ¬ (k = k') := fun hc => h hc.symm
    simp [alSet, alLookup, this]
  | cons kv rest ih =>
    obtain ⟨k0, v0⟩ := kv
    by_cases h0 : k0 = k
    · subst h0
      have : ¬ (k0 = k') := fun hc => h hc.symm
      simp [alSet, alLookup, this]
    · by_cases h1 : k0 = k'
      · subst h1
        simp [alSet, alLookup, h0, h]
      · simp [alSet, alLookup, h0, h1, ih]

theorem updateVulnList_cons (r : VulnRec) (rest : List VulnRec) (v : VulnRec) :
    updateVulnList (r :: rest) v =
      if r.summary = v.summary then v :: rest else r :: updateVulnList rest v := by
  by_cases h : r.summary = v.summary
  · simp [updateVulnList, List.findIdx?_cons, h]
  · simp only [updateVulnList, List.findIdx?_cons, h]
    have hb : (r.summary == v.summary) = false := beq_eq_false_iff_ne.mpr h
    simp only [hb, if_neg, Bool.false_eq_true, if_false, if_neg h]
    cases hidx : rest.findIdx? (fun x => x.summary == v.summary) with
    | none => simp [hidx]
    | some i => simp [hidx]

theorem updateVulnList_filter (l : List VulnRec) (v : VulnRec) :
    (updateVulnList l v).filter (fun r => r.summary ≠ v.summary)
      = l.filter (fun r => r.summary ≠ v.summary) := by
  induction l with
  | nil => simp [updateVulnList, List.findIdx?_nil]
  | cons r rest ih =>
    rw [updateVulnList_cons]
    by_cases h : r.summary = v.summary
    · rw [if_pos h]
      simp [List.filter_cons, h]
    · rw [if_neg h]
      simp only [ne_eq, decide_not] at ih
      simp [List.filter_cons, h, ne_eq, decide_not, ih]

/-- C10 (counterexample): the url has a cache entry (written at time `0`,
holding package `"other"`'s list and an etag), yet at time `100` with TTL
`10` the update deletes it outright — neither the other package's
vulnerability list nor the etag survives, against the claim's "if an
entry exists, every other package's vulnerability list and the stored
etag are preserved". -/
theorem cache_update_frame_counterexample :
    (alLookup [("u", c10entry)] "u").isSome = true
    ∧ updateVulnerability 100 10 [("u", c10entry)] "u" "p" ⟨.high, "incoming"⟩ = [] := by
  exact ⟨rfl, rfl⟩

/-- C10 (amended): if the url has no cache entry, the call leaves the
store unchanged; if it has a *fresh* (unexpired) entry, the update
touches nothing but the one record keyed `(packageName, summary)` — other
urls' entries, the stored etag, every other package's vulnerability list,
and every record of the target package with a different summary are
preserved (the entry's timestamp is refreshed); if the entry exists but
its age exceeds the TTL, the read inside the update evicts it and the
update is skipped, deleting the whole entry. -/
theorem cache_update_frame :
    ∀ (now ttl : Nat) (c : List (String × CEntry)) (url pkg : String) (v : VulnRec),
      (alLookup c url = none → updateVulnerability now ttl c url pkg v = c)
      ∧ (∀ e, alLookup c url = some e → now - e.timestamp ≤ ttl →
          (∀ u, u ≠ url →
            alLookup (updateVulnerability now ttl c url pkg v) u = alLookup c u)
          ∧ ∃ e', alLookup (updateVulnerability now ttl c url pkg v) url = some e'
              ∧ e'.etag = e.etag
              ∧ (∀ p, p ≠ pkg → alLookup e'.data p = alLookup e.data p)
              ∧ ((alLookup e'.data pkg).getD []).filter (fun r => r.summary ≠ v.summary)
                  = ((alLookup e.data pkg).getD []).filter (fun r => r.summary ≠ v.summary))
      ∧ (∀ e, alLookup c url = some e → now - e.timestamp > ttl →
          updateVulnerability now ttl c url pkg v = alDelete c url) := by
  intro now ttl c url pkg v
  refine ⟨?_, ?_, ?_⟩
  · intro hnone
    simp [updateVulnerability, cacheGet, hnone]
  · intro e he hfresh
    have hget : cacheGet now ttl c url = (some e, c) := by
      simp [cacheGet, he]
      omega
    have hrun : updateVulnerability now ttl c url pkg v =
        alSet c url ⟨now, e.etag,
          alSet e.data pkg (updateVulnList ((alLookup e.data pkg).getD []) v)⟩ := by
      simp [updateVulnerability, hget, cacheSet]
    constructor
    · intro u hu
      rw [hrun]
      exact alLookup_alSet_ne c url u _ hu
    · refine ⟨⟨now, e.etag,
        alSet e.data pkg (updateVulnList ((alLookup e.data pkg).getD []) v)⟩, ?_, rfl, ?_, ?_⟩
      · rw [hrun]
        exact alLookup_alSet_self c url _
      · intro p hp
        exact alLookup_alSet_ne e.data pkg p _ hp
      · simp only [alLookup_alSet_self, Option.getD_some]
        exact updateVulnList_filter _ v
  · intro e he hexp
    have hget : cacheGet now ttl c url = (none, alDelete c url) := by
      simp [cacheGet, he, hexp]
    simp [updateVulnerability, hget]

/-- Witness for C10's amended theorem: a fresh entry (age 5 ≤ TTL 10) —
the refreshed entry keeps the etag. -/
theorem cache_update_frame_witness :
    ∃ e', alLookup (updateVulnerability 5 10 [("u", c10entry)] "u" "p" ⟨.high, "incoming"⟩) "u"
        = some e' ∧ e'.etag = some "etag-1" := by
  have h := (cache_update_frame 5 10 [("u", c10entry)] "u" "p" ⟨.high, "incoming"⟩).2.1
    c10entry rfl (by decide)
  obtain ⟨e', h1, h2, _⟩ := h.2
  exact ⟨e', h1, by rw [h2]; rfl⟩

end JSentinel
